/-
Verification of the AgentScope workstation workflow engine
(`agentscope/web/workstation/workflow_dag.py` and
`agentscope/web/workstation/workflow_node.py`).

The Python code is shallowly embedded: identifiers are natural numbers,
Python dicts keyed by node id become association lists, Python sets whose
only observable operation is membership become lists, and fallible code
returns `Except`.  External collaborators (networkx's topological sort,
the wrapped agent/model/pipeline library) are modelled by their documented
contracts; every such definition carries a comment saying so.
-/
import Mathlib

namespace AgentScope

/-! ## `remove_duplicates_from_end` (workflow_dag.py, lines 47-73)

The Python source iterates the list in reverse, keeps the first occurrence
seen during that reverse traversal (i.e. the last occurrence in the original
order), and reverses the result back. -/

/-- The reverse-traversal loop of `remove_duplicates_from_end`: `seen` is the
set of already-encountered items (a Python `set`, modelled as a list used
only through membership), and the returned list collects the kept items in
traversal order. -/
def rdeLoop {α : Type} [DecidableEq α] : List α → List α → List α
  | [], _ => []
  | a :: t, seen =>
    if a ∈ seen then rdeLoop t seen
    else a :: rdeLoop t (a :: seen)

/-- `remove_duplicates_from_end(lst)`: process `reversed(lst)` keeping
unseen items, then reverse the accumulated result. -/
def remove_duplicates_from_end {α : Type} [DecidableEq α] (lst : List α) : List α :=
  (rdeLoop lst.reverse []).reverse

/-- Specification-side characterisation of "keep each element at the position
of its last occurrence, preserving order": keep an element exactly when it
does not occur again later in the list. -/
def keepLastOccurrences {α : Type} [DecidableEq α] : List α → List α
  | [] => []
  | a :: t => if a ∈ t then keepLastOccurrences t else a :: keepLastOccurrences t

/-! ## Node type system (workflow_node.py) -/

/-- `WorkflowNodeType` (workflow_node.py, lines 74-96). -/
inductive WorkflowNodeType where
  | model | agent | pipeline | service | message | copy
deriving DecidableEq, Repr

/-- The concrete node classes registered in `NODE_NAME_MAPPING`
(workflow_node.py, lines 925-948). -/
inductive NodeClass where
  | modelNode
  | msgNode
  | dialogAgentNode
  | userAgentNode
  | dictDialogAgentNode
  | reactAgentNode
  | placeholderNode
  | msgHubNode
  | sequentialPipelineNode
  | forLoopPipelineNode
  | whileLoopPipelineNode
  | ifElsePipelineNode
  | switchPipelineNode
  | copyNode
  | bingSearchServiceNode
  | googleSearchServiceNode
  | pythonServiceNode
  | readTextServiceNode
  | writeTextServiceNode
deriving DecidableEq, Repr

/-- The `node_type` class attribute of each node class. -/
def NodeClass.nodeType : NodeClass → WorkflowNodeType
  | .modelNode => .model
  | .msgNode => .message
  | .dialogAgentNode => .agent
  | .userAgentNode => .agent
  | .dictDialogAgentNode => .agent
  | .reactAgentNode => .agent
  | .placeholderNode => .pipeline
  | .msgHubNode => .pipeline
  | .sequentialPipelineNode => .pipeline
  | .forLoopPipelineNode => .pipeline
  | .whileLoopPipelineNode => .pipeline
  | .ifElsePipelineNode => .pipeline
  | .switchPipelineNode => .pipeline
  | .copyNode => .copy
  | .bingSearchServiceNode => .service
  | .googleSearchServiceNode => .service
  | .pythonServiceNode => .service
  | .readTextServiceNode => .service
  | .writeTextServiceNode => .service

/-- `NODE_NAME_MAPPING` (workflow_node.py, lines 925-948): kind name → class.
A missing key is a Python `KeyError`, modelled as `none`. -/
def NODE_NAME_MAPPING : String → Option NodeClass
  | "dashscope_chat" => some .modelNode
  | "openai_chat" => some .modelNode
  | "post_api_chat" => some .modelNode
  | "post_api_dall_e" => some .modelNode
  | "Message" => some .msgNode
  | "DialogAgent" => some .dialogAgentNode
  | "UserAgent" => some .userAgentNode
  | "DictDialogAgent" => some .dictDialogAgentNode
  | "ReActAgent" => some .reactAgentNode
  | "Placeholder" => some .placeholderNode
  | "MsgHub" => some .msgHubNode
  | "SequentialPipeline" => some .sequentialPipelineNode
  | "ForLoopPipeline" => some .forLoopPipelineNode
  | "WhileLoopPipeline" => some .whileLoopPipelineNode
  | "IfElsePipeline" => some .ifElsePipelineNode
  | "SwitchPipeline" => some .switchPipelineNode
  | "CopyNode" => some .copyNode
  | "BingSearchService" => some .bingSearchServiceNode
  | "GoogleSearchService" => some .googleSearchServiceNode
  | "PythonService" => some .pythonServiceNode
  | "ReadTextService" => some .readTextServiceNode
  | "WriteTextService" => some .writeTextServiceNode
  | _ => none

/-- A constructed `WorkflowNode` instance (its `opt` object).  Dependencies
resolved through containment are stored inside the node, mirroring
`dep_opts`.  For `switch`, `defaultOp = none` means the `_placeholder`
no-op stands in as the default branch (workflow_node.py, lines 709-712);
`some d` means the extra trailing dependency `d` was popped as the default
(lines 713-716). -/
inductive Node where
  | model (id : Nat)
  | msg (id : Nat) (name content : String)
  | dialogAgent (id : Nat)
  | userAgent (id : Nat)
  | dictDialogAgent (id : Nat)
  | reactAgent (id : Nat) (tools : List Node)
  | placeholder (id : Nat)
  | msgHub (id : Nat) (annName annContent : String) (dep : Node)
  | sequential (id : Nat) (deps : List Node)
  | forLoop (id : Nat) (body : Node)
  | whileLoop (id : Nat) (body : Node)
  | ifElse (id : Nat) (ifBody : Node) (elseBody : Option Node)
  | switch (id : Nat) (caseOps : List (String × Node)) (defaultOp : Option Node)
  | copy (id : Nat) (dep : Node)
  | bingSearch (id : Nat)
  | googleSearch (id : Nat)
  | pythonService (id : Nat)
  | readTextService (id : Nat)
  | writeTextService (id : Nat)

/-- The node's id (`node_id`). -/
def Node.nid : Node → Nat
  | .model i => i
  | .msg i _ _ => i
  | .dialogAgent i => i
  | .userAgent i => i
  | .dictDialogAgent i => i
  | .reactAgent i _ => i
  | .placeholder i => i
  | .msgHub i _ _ _ => i
  | .sequential i _ => i
  | .forLoop i _ => i
  | .whileLoop i _ => i
  | .ifElse i _ _ => i
  | .switch i _ _ => i
  | .copy i _ => i
  | .bingSearch i => i
  | .googleSearch i => i
  | .pythonService i => i
  | .readTextService i => i
  | .writeTextService i => i

/-- The `node_type` of the instance's class. -/
def Node.nodeType : Node → WorkflowNodeType
  | .model _ => .model
  | .msg _ _ _ => .message
  | .dialogAgent _ => .agent
  | .userAgent _ => .agent
  | .dictDialogAgent _ => .agent
  | .reactAgent _ _ => .agent
  | .placeholder _ => .pipeline
  | .msgHub _ _ _ _ => .pipeline
  | .sequential _ _ => .pipeline
  | .forLoop _ _ => .pipeline
  | .whileLoop _ _ => .pipeline
  | .ifElse _ _ _ => .pipeline
  | .switch _ _ _ => .pipeline
  | .copy _ _ => .copy
  | .bingSearch _ => .service
  | .googleSearch _ => .service
  | .pythonService _ => .service
  | .readTextService _ => .service
  | .writeTextService _ => .service

/-- `hasattr(node, "pipeline")`: true exactly for the classes whose
`__init__` assigns `self.pipeline` (agents, all pipeline kinds, copy);
false for `ModelNode`, `MsgNode` and the service nodes. -/
def Node.hasPipelineAttr : Node → Bool
  | .model _ => false
  | .msg _ _ _ => false
  | .bingSearch _ => false
  | .googleSearch _ => false
  | .pythonService _ => false
  | .readTextService _ => false
  | .writeTextService _ => false
  | _ => true

/-- `hasattr(node, "service_func")`: true exactly for the five service
node classes, whose `__init__` assigns `self.service_func`. -/
def Node.hasServiceFunc : Node → Bool
  | .bingSearch _ => true
  | .googleSearch _ => true
  | .pythonService _ => true
  | .readTextService _ => true
  | .writeTextService _ => true
  | _ => false

/-! ## Runtime values

Python values flowing between nodes.  `vnone` is Python `None`; results of
opaque external callables (agents, loop/branch pipeline wrappers) are
represented as free constructors applied to the node id and the input, per
the collaborator contract "a single-argument callable `(input) -> output`". -/

inductive Value where
  | vnone
  | vmsg (name content : String)
  | reply (id : Nat) (input : Value)
  | pipeRes (id : Nat) (input : Value)
deriving DecidableEq, Repr

/-- The base `WorkflowNode.__call__` (workflow_node.py, lines 164-181):
its body is empty, so it returns `None`. -/
def baseCall (_x : Value) : Value := Value.vnone

/-- Node execution, i.e. each class's `__call__`, with a fuel argument for
the recursion through dependencies.  Classes that do not override
`__call__` (`ModelNode` and the five service classes) fall through to
`baseCall`.  External callables are modelled from the spec:
`_placeholder` returns its input unchanged; `SequentialPipeline` chains its
operators' outputs in order; agent calls and the loop/branch/switch
wrappers are opaque single-argument callables. -/
def Node.callF : Nat → Node → Value → Value
  | 0, _, _ => Value.vnone
  | _ + 1, .model _, x => baseCall x
  | _ + 1, .msg _ n c, _ => Value.vmsg n c
  | _ + 1, .dialogAgent i, x => Value.reply i x
  | _ + 1, .userAgent i, x => Value.reply i x
  | _ + 1, .dictDialogAgent i, x => Value.reply i x
  | _ + 1, .reactAgent i _, x => Value.reply i x
  | _ + 1, .placeholder _, x => x
  | fuel + 1, .msgHub _ _ _ dep, x => Node.callF fuel dep x
  | fuel + 1, .sequential _ deps, x => deps.foldl (fun v d => Node.callF fuel d v) x
  | _ + 1, .forLoop i _, x => Value.pipeRes i x
  | _ + 1, .whileLoop i _, x => Value.pipeRes i x
  | _ + 1, .ifElse i _ _, x => Value.pipeRes i x
  | _ + 1, .switch i _ _, x => Value.pipeRes i x
  | fuel + 1, .copy _ dep, x => Node.callF fuel dep x
  | _ + 1, .bingSearch _, x => baseCall x
  | _ + 1, .googleSearch _, x => baseCall x
  | _ + 1, .pythonService _, x => baseCall x
  | _ + 1, .readTextService _, x => baseCall x
  | _ + 1, .writeTextService _, x => baseCall x

/-! ## `get_all_agents` (workflow_node.py, lines 951-993)

Python object identities: the traversal compares the `WorkflowNode`
wrapper objects against a `seen` set into which it inserts the *wrapped*
`participant.pipeline` objects.  Those are distinct Python objects, so we
give each its own identity constructor. -/

/-- A Python object identity: either a `WorkflowNode` wrapper or the
wrapped `.pipeline` object of the node with that id. -/
inductive PyObj where
  | wrapper (id : Nat)
  | wrapped (id : Nat)
deriving DecidableEq, Repr

inductive AgentsError where
  | typeError       -- `raise TypeError(type(participant))`
  | attrError       -- the node's `.pipeline` has no `.participants`
  | fuelOut
deriving DecidableEq, Repr

/-- Modelled from the spec: the external pipeline wrapper objects
(`SequentialPipeline`, `_ForLoopPipeline`, ...) are built from the node's
containment dependencies, and `node.pipeline.participants` enumerates
those member nodes ("the containment tree").  For nodes whose `pipeline`
attribute is not such a wrapper, accessing `.participants` is an
`AttributeError`. -/
def participantsOf : Node → Except AgentsError (List Node)
  | .sequential _ deps => .ok deps
  | .forLoop _ b => .ok [b]
  | .whileLoop _ b => .ok [b]
  | .ifElse _ i e => .ok (i :: e.toList)
  | .switch _ cs d => .ok (cs.map Prod.snd ++ d.toList)
  | .msgHub _ _ _ d => .ok [d]
  | .copy _ d => .ok [d]
  | _ => .error .attrError

/-- `get_all_agents(node, seen_agents, return_var=False)` (workflow_node.py,
lines 951-993).  The `seen` set is threaded through recursive calls just as
the Python set object is shared by reference.  Note the source tests
`participant not in seen_agents` (the wrapper object) but inserts
`participant.pipeline` (the wrapped object). -/
def getAllAgentsF : Nat → Node → List PyObj → Except AgentsError (List PyObj × List PyObj)
  | 0, _, _ => .error .fuelOut
  | fuel + 1, node, seen => do
    let parts ← participantsOf node
    parts.foldlM
      (fun acc p =>
        match p.nodeType with
        | .agent =>
          if PyObj.wrapper p.nid ∈ acc.2 then pure acc
          else pure (acc.1 ++ [PyObj.wrapped p.nid], acc.2 ++ [PyObj.wrapped p.nid])
        | .pipeline => do
          let res ← getAllAgentsF fuel p acc.2
          pure (acc.1 ++ res.1, res.2)
        | _ => .error .typeError)
      (([] : List PyObj), seen)

/-- Top-level call with a fresh `seen` set, returning the collected
participant list (`MsgHubNode.__init__`, workflow_node.py line 443). -/
def getAllAgents (n : Node) : Except AgentsError (List PyObj) :=
  (getAllAgentsF 100 n []).map Prod.fst

/-! ## Node construction (`node_cls(...)`, workflow_node.py)

Each class's `__init__` together with its arity assertions.  Python
`assert` failures and explicitly raised errors are distinguished. -/

inductive BuildError where
  | unknownKind        -- KeyError in NODE_NAME_MAPPING
  | notImplemented     -- `raise NotImplementedError(node_cls)`
  | assertArity        -- a failed arity/shape `assert` in an `__init__`
  | typeMismatch       -- `raise TypeError(f"{tool} must be tool!")`
  | configMismatch     -- `raise ValueError(...)` in SwitchPipelineNode
  | agentsTypeError    -- TypeError propagated out of get_all_agents
  | keyError           -- KeyError on a required parameter / config id
  | cyclicWorkflow     -- `raise ValueError("The provided configuration does not form a DAG.")`
  | recursionLimit     -- non-terminating containment recursion
deriving DecidableEq, Repr

/-- The parameters of a node descriptor after the sanitization pass
(`sanitize_node_data`): only the fields the constructors read are kept.
`cases` is `opt_kwargs["cases"]` for switch nodes (`none` when absent);
`announcement` mirrors `opt_kwargs["announcement"]` for MsgHub nodes with
its optional `name`/`content` entries. -/
structure NodeArgs where
  msgName : String
  msgContent : String
  cases : Option (List String)
  hasAnnouncement : Bool
  annName : Option String
  annContent : Option String
deriving DecidableEq, Repr

/-- Default/empty argument record. -/
def noArgs : NodeArgs := ⟨"", "", none, false, none, none⟩

/-- `SwitchPipelineNode.__init__` (workflow_node.py, lines 695-736):
`assert 0 < len(dep_opts)`; if `len(deps) == len(cases)` the `_placeholder`
stands in as default; if `len(deps) == len(cases) + 1` the trailing
dependency is popped as default; otherwise `raise ValueError`. -/
def mkSwitch (nid : Nat) (cases : List String) (deps : List Node) :
    Except BuildError Node :=
  if deps.length = 0 then .error .assertArity
  else if deps.length = cases.length then
    .ok (.switch nid (cases.zip deps) none)
  else if deps.length = cases.length + 1 then
    .ok (.switch nid (cases.zip deps.dropLast) deps.getLast?)
  else .error .configMismatch

/-- `node_cls(node_id=..., opt_kwargs=..., source_kwargs=..., dep_opts=...)`:
the per-class `__init__` bodies, with their asserts and raised errors. -/
def mkNode (cls : NodeClass) (nid : Nat) (args : NodeArgs) (deps : List Node) :
    Except BuildError Node :=
  match cls with
  | .modelNode => .ok (.model nid)
  | .msgNode => .ok (.msg nid args.msgName args.msgContent)
  | .dialogAgentNode => .ok (.dialogAgent nid)
  | .userAgentNode => .ok (.userAgent nid)
  | .dictDialogAgentNode => .ok (.dictDialogAgent nid)
  | .reactAgentNode =>
    -- `if not hasattr(tool, "service_func"): raise TypeError`
    if deps.all Node.hasServiceFunc then .ok (.reactAgent nid deps)
    else .error .typeMismatch
  | .placeholderNode => .ok (.placeholder nid)
  | .msgHubNode =>
    -- `self.opt_kwargs["announcement"].get("name", "Host")` etc.
    if args.hasAnnouncement then
      match deps with
      | [d] =>
        -- `assert len(self.dep_opts) == 1 and hasattr(self.dep_opts[0], "pipeline")`
        if d.hasPipelineAttr then
          match getAllAgents d with
          | .ok _ => .ok (.msgHub nid (args.annName.getD "Host")
              (args.annContent.getD "Welcome!") d)
          | .error _ => .error .agentsTypeError
        else .error .assertArity
      | _ => .error .assertArity
    else .error .keyError
  | .sequentialPipelineNode => .ok (.sequential nid deps)
  | .forLoopPipelineNode =>
    match deps with
    | [d] => .ok (.forLoop nid d)
    | _ => .error .assertArity
  | .whileLoopPipelineNode =>
    match deps with
    | [d] => .ok (.whileLoop nid d)
    | _ => .error .assertArity
  | .ifElsePipelineNode =>
    match deps with
    | [d] => .ok (.ifElse nid d none)
    | [d, e] => .ok (.ifElse nid d (some e))
    | _ => .error .assertArity
  | .switchPipelineNode =>
    match args.cases with
    | none => .error .keyError        -- KeyError on opt_kwargs["cases"]
    | some cs => mkSwitch nid cs deps
  | .copyNode =>
    match deps with
    | [d] => .ok (.copy nid d)
    | _ => .error .assertArity
  | .bingSearchServiceNode => .ok (.bingSearch nid)
  | .googleSearchServiceNode => .ok (.googleSearch nid)
  | .pythonServiceNode => .ok (.pythonService nid)
  | .readTextServiceNode => .ok (.readTextService nid)
  | .writeTextServiceNode => .ok (.writeTextService nid)

/-! ## The graph builder (`ASDiGraph` / `build_dag`, workflow_dag.py) -/

/-- One entry of the normalized configuration mapping (a node descriptor
after `sanitize_node_data`): its kind name, containment dependency ids
(`data.elements`), operative parameters, and flow-edge targets collected
from `outputs[*].connections[*].node` in their iteration order. -/
structure NodeInfo where
  name : String
  elements : List Nat
  args : NodeArgs
  outputs : List Nat
deriving DecidableEq, Repr

/-- The configuration mapping, id → descriptor (a Python dict in insertion
order). -/
abbrev Config := List (Nat × NodeInfo)

/-- Dict lookup (first matching key). -/
def lookupCfg (config : Config) (i : Nat) : Option NodeInfo :=
  (config.find? (fun e => e.1 = i)).map Prod.snd

/-- An entry of `ASDiGraph.imports`. -/
inductive ImportStmt where
  | header               -- "import agentscope"
  | nodeImport (id : Nat)
deriving DecidableEq, Repr

/-- An entry of `ASDiGraph.inits`: the root `agentscope.init(...)` call,
the `flow = None` statement, or the `compile_dict["inits"]` fragment
contributed by the node with the given id and node type. -/
inductive InitStmt where
  | root
  | flowVar
  | nodeInit (id : Nat) (t : WorkflowNodeType)
deriving DecidableEq, Repr

/-- The builder's mutable state: the networkx node set with the attached
`opt` objects (insertion-ordered, keyed by id), the `nodes_not_in_graph`
set, and the `imports` / `inits` code fragment lists. -/
structure DagState where
  opts : List (Nat × Node)
  excluded : List Nat
  imports : List ImportStmt
  inits : List InitStmt

/-- `ASDiGraph.__init__`: empty graph, `imports = ["import agentscope"]`,
`inits = [root, "flow = None"]`. -/
def initialState : DagState :=
  ⟨[], [], [.header], [.root, .flowVar]⟩

/-- Dict lookup in the node set. -/
def lookupNode (opts : List (Nat × Node)) (i : Nat) : Option Node :=
  (opts.find? (fun e => e.1 = i)).map Prod.snd

/-- Python `set.union`: add the elements not already present. -/
def unionList (s : List Nat) (new : List Nat) : List Nat :=
  s ++ new.filter (fun x => decide (x ∉ s))

/-- networkx `add_node`: a dict-style upsert — an existing id keeps its
position and gets its attributes replaced, a new id is appended. -/
def insertNode : List (Nat × Node) → Nat → Node → List (Nat × Node)
  | [], nid, n => [(nid, n)]
  | e :: t, nid, n => if e.1 = nid then (nid, n) :: t else e :: insertNode t nid n

/-- `list.insert(1, a)`: insert after the first element (Python appends
when the list is shorter). -/
def insertAt1 {α : Type} (a : α) : List α → List α
  | [] => [a]
  | h :: t => h :: a :: t

/-- The body of the dependency-resolution loop of `add_as_node`
(workflow_dag.py, lines 314-319): if the dependency is not yet in the
graph, look its descriptor up in the configuration and add it recursively
(`recur` is the recursive `add_as_node` call); then append the
dependency's stored `opt` object. -/
def depStepF (config : Config)
    (recur : DagState → Nat → NodeInfo → Except BuildError (DagState × Node))
    (acc : DagState × List Node) (depId : Nat) :
    Except BuildError (DagState × List Node) := do
  let st ←
    match lookupNode acc.1.opts depId with
    | some _ => pure acc.1
    | none =>
      match lookupCfg config depId with
      | none => Except.error BuildError.keyError
      | some depInfo => do
        let (st', _) ← recur acc.1 depId depInfo
        pure st'
  match lookupNode st.opts depId with
  | some depOpt => pure (st, acc.2 ++ [depOpt])
  | none => Except.error BuildError.keyError

/-- `ASDiGraph.add_as_node(node_id, node_info, config)` (workflow_dag.py,
lines 256-345), with fuel bounding the containment recursion depth.
Faithful step order: class lookup, supported-type check, memoization
check, exclusion marking (container kind ≠ COPY), recursive dependency
resolution, construction, node insertion, imports/inits insertion
(Model-kind init fragments are inserted at position 1, others appended). -/
def addAsNode (config : Config) :
    Nat → DagState → Nat → NodeInfo → Except BuildError (DagState × Node)
  | 0, _, _, _ => .error .recursionLimit
  | fuel + 1, st, nid, info => do
    let cls ← match NODE_NAME_MAPPING info.name with
      | none => Except.error BuildError.unknownKind
      | some c => pure c
    if cls.nodeType ∈ [WorkflowNodeType.model, .agent, .message, .pipeline,
        .copy, .service] then
      match lookupNode st.opts nid with
      | some n => pure (st, n)
      | none =>
        let deps := info.elements
        let st : DagState :=
          if cls.nodeType ≠ WorkflowNodeType.copy then
            ⟨st.opts, unionList st.excluded deps, st.imports, st.inits⟩
          else st
        let (st, depOpts) ← deps.foldlM
          (depStepF config (addAsNode config fuel)) (st, [])
        let nodeOpt ← mkNode cls nid info.args depOpts
        let st : DagState := ⟨insertNode st.opts nid nodeOpt, st.excluded,
          st.imports ++ [.nodeImport nid],
          if cls.nodeType = WorkflowNodeType.model then
            insertAt1 (InitStmt.nodeInit nid cls.nodeType) st.inits
          else
            st.inits ++ [InitStmt.nodeInit nid cls.nodeType]⟩
        pure (st, nodeOpt)
    else .error .notImplemented

/-- Whether a descriptor's registered class is Model-kind (the loop
condition of `build_dag`'s first pass, workflow_dag.py lines 485-489). -/
def isModelEntry : Nat × NodeInfo → Bool := fun e =>
  match NODE_NAME_MAPPING e.2.name with
  | some c => c.nodeType = WorkflowNodeType.model
  | none => false

/-- The two construction passes of `build_dag` (workflow_dag.py, lines
484-498): first every Model-kind descriptor, then every other descriptor,
in configuration order. -/
def buildNodes (config : Config) : Except BuildError DagState := do
  let st ← (config.filter isModelEntry).foldlM
    (fun st e => do
      let (st', _) ← addAsNode config (config.length + 1) st e.1 e.2
      pure st')
    initialState
  (config.filter (fun e => ¬ isModelEntry e)).foldlM
    (fun st e => do
      let (st', _) ← addAsNode config (config.length + 1) st e.1 e.2
      pure st')
    st

/-- The built graph: vertex ids in insertion order, flow edges in insertion
order, plus the builder state. -/
structure Graph where
  nodeIds : List Nat
  edges : List (Nat × Nat)
  opts : List (Nat × Node)
  excluded : List Nat
  imports : List ImportStmt
  inits : List InitStmt

/-- networkx: add a vertex if it is not already present. -/
def addNodeId (g : Graph) (u : Nat) : Graph :=
  if u ∈ g.nodeIds then g else
    ⟨g.nodeIds ++ [u], g.edges, g.opts, g.excluded, g.imports, g.inits⟩

/-- networkx: record the edge itself (an already-present edge is not
duplicated — the adjacency dict entry is merely updated). -/
def addEdgeRaw (g : Graph) (u v : Nat) : Graph :=
  if (u, v) ∈ g.edges then g else
    ⟨g.nodeIds, g.edges ++ [(u, v)], g.opts, g.excluded, g.imports, g.inits⟩

/-- networkx `DiGraph.add_edge`: inserts missing endpoints, then the
edge. -/
def addEdge (g : Graph) (u v : Nat) : Graph :=
  addEdgeRaw (addNodeId (addNodeId g u) v) u v

/-- The edge-adding pass of `build_dag` (workflow_dag.py, lines 500-510):
for each descriptor in configuration order, an edge to every listed
connection target. -/
def addEdges (st : DagState) (config : Config) : Graph :=
  config.foldl
    (fun g e => e.2.outputs.foldl (fun g t => addEdge g e.1 t) g)
    ⟨st.opts.map Prod.fst, [], st.opts, st.excluded, st.imports, st.inits⟩

/-! ## Topological order (networkx, modelled from its documented contract)

`nx.topological_sort` is Kahn's algorithm: repeatedly remove a remaining
vertex with no incoming edge from the remaining vertices; report failure
(`NetworkXUnfeasible`) when none exists.  `nx.is_directed_acyclic_graph`
succeeds exactly when a topological sort exists. -/

/-- `v` has no incoming edge from `remaining`. -/
def isSource (edges : List (Nat × Nat)) (remaining : List Nat) (v : Nat) : Bool :=
  ¬ (edges.any (fun e => e.1 ∈ remaining ∧ e.2 = v))

/-- Kahn's algorithm over the remaining vertex list, with fuel
`remaining.length`. -/
def kahnAux (edges : List (Nat × Nat)) : Nat → List Nat → Option (List Nat)
  | _, [] => some []
  | 0, _ :: _ => none
  | fuel + 1, a :: t =>
    ((a :: t).find? (isSource edges (a :: t))).bind
      (fun v => (kahnAux edges fuel ((a :: t).erase v)).map (v :: ·))

/-- Topological sort of the graph's vertices. -/
def kahn (g : Graph) : Option (List Nat) :=
  kahnAux g.edges g.nodeIds.length g.nodeIds

/-- `build_dag(config)` (workflow_dag.py, lines 429-516): build the nodes,
add the flow edges, then fail with the cyclic-workflow `ValueError` unless
the whole graph is a DAG. -/
def build_dag (config : Config) : Except BuildError Graph := do
  let st ← buildNodes config
  let g := addEdges st config
  if (kahn g).isSome then pure g else .error .cyclicWorkflow

/-! ## `ASDiGraph.run` (workflow_dag.py, lines 127-173) -/

inductive RunError where
  | notADag             -- NetworkXUnfeasible from topological_sort
  | keyError            -- `values[predecessor]` missing
  | missingOpt          -- `self.nodes[node_id]["opt"]` missing
  | tooManyPredecessors -- `raise ValueError("Too many predecessors!")`
deriving DecidableEq, Repr

/-- `self.predecessors(node_id)`: sources of the incoming edges, in edge
insertion order (networkx adjacency dicts preserve insertion order). -/
def predsOf (g : Graph) (v : Nat) : List Nat :=
  (g.edges.filter (fun e => e.2 = v)).map Prod.fst

/-- Fuel handed to node execution; any positive value yields the same
observable trace for the graphs considered here. -/
def execFuel : Nat := 100

/-- One step of the run loop for node `nid` given the output cache:
compute `inputs = [values[p] for p in predecessors]`, then the source's
`if not inputs / elif len(inputs) / else raise` chain, calling
`exec_node` (which invokes the node's `__call__`).  Returns the input
actually passed (`None` for no predecessor) and the output. -/
def runStep (g : Graph) (values : List (Nat × Value)) (nid : Nat) :
    Except RunError (Value × Value) :=
  match (predsOf g nid).mapM
    (fun p =>
      match (values.find? (fun e => e.1 = p)).map Prod.snd with
      | none => Except.error RunError.keyError
      | some v => pure v) with
  | .error e => .error e
  | .ok inputs =>
    match lookupNode g.opts nid with
    | none => .error .missingOpt
    | some opt =>
      if inputs.isEmpty then
        .ok (Value.vnone, Node.callF execFuel opt Value.vnone)
      else if inputs.length ≠ 0 then
        -- "only support exec with the first predecessor now"
        .ok (inputs.headD Value.vnone,
          Node.callF execFuel opt (inputs.headD Value.vnone))
      else
        .error .tooManyPredecessors

/-- `ASDiGraph.run` (workflow_dag.py, lines 127-173): topologically sort,
drop the `nodes_not_in_graph`, then execute each node with its (first)
predecessor's cached output, caching the result.  The returned trace
lists, in execution order, each executed node id with the input passed to
it and its output. -/
def ASDiGraph.run (g : Graph) : Except RunError (List (Nat × Value × Value)) := do
  let sorted ← match kahn g with
    | none => Except.error RunError.notADag
    | some l => pure l
  let sorted := sorted.filter (fun v => decide (v ∉ g.excluded))
  let res ← sorted.foldlM
    (fun (acc : List (Nat × Value) × List (Nat × Value × Value)) nid => do
      let (xin, out) ← runStep g acc.1 nid
      pure ((nid, out) :: acc.1, acc.2 ++ [(nid, xin, out)]))
    ([], [])
  pure res.2

/-! ## Verification-side predicates about builder states -/

/-- An init fragment contributed by a Model-kind node. -/
def ModelFrag (s : InitStmt) : Prop := ∃ i, s = InitStmt.nodeInit i WorkflowNodeType.model

/-- An init fragment contributed by a non-Model node. -/
def NonModelFrag (s : InitStmt) : Prop :=
  ∃ i t, s = InitStmt.nodeInit i t ∧ t ≠ WorkflowNodeType.model

/-- Shape invariant of the `inits` list: the root call first, then the
Model-kind fragments, then the `flow = None` statement, then the
non-Model fragments. -/
def InitsOk (l : List InitStmt) : Prop :=
  ∃ ms ns, l = InitStmt.root :: ms ++ InitStmt.flowVar :: ns ∧
    (∀ s ∈ ms, ModelFrag s) ∧ (∀ s ∈ ns, NonModelFrag s)

/-- Node id `i` is listed in the containment elements of some descriptor
whose class is registered and is not Copy-kind. -/
def Excludes (config : Config) (i : Nat) : Prop :=
  ∃ e, e ∈ config ∧ i ∈ e.2.elements ∧
    ∃ cls, NODE_NAME_MAPPING e.2.name = some cls ∧
      cls.nodeType ≠ WorkflowNodeType.copy

/-- Every constructed descriptor has already contributed its exclusions:
if the node of a non-Copy descriptor is in the graph, all its contained
element ids are in the excluded set. -/
def CompInv (config : Config) (st : DagState) : Prop :=
  ∀ e, e ∈ config → (lookupNode st.opts e.1).isSome = true →
    ∀ cls, NODE_NAME_MAPPING e.2.name = some cls →
      cls.nodeType ≠ WorkflowNodeType.copy →
      ∀ i, i ∈ e.2.elements → i ∈ st.excluded

/-- Monotonicity facts carried across builder steps that need no
assumptions about the configuration. -/
def TransferB (s s' : DagState) : Prop :=
  (∀ i, (lookupNode s.opts i).isSome = true → (lookupNode s'.opts i).isSome = true) ∧
  (∃ t2, s'.excluded = s.excluded ++ t2) ∧
  (InitsOk s.inits → InitsOk s'.inits) ∧
  ((s.opts.map Prod.fst).Nodup → (s'.opts.map Prod.fst).Nodup)

/-- Exclusion bookkeeping carried across builder steps. -/
def TransferC (config : Config) (s s' : DagState) : Prop :=
  ((∀ i, i ∈ s.excluded → Excludes config i) →
    ∀ i, i ∈ s'.excluded → Excludes config i) ∧
  (CompInv config s → CompInv config s')

/-- Reachability along one or more flow edges. -/
inductive Reaches (edges : List (Nat × Nat)) : Nat → Nat → Prop
  | single {u v : Nat} : (u, v) ∈ edges → Reaches edges u v
  | tail {u v w : Nat} : Reaches edges u v → (v, w) ∈ edges → Reaches edges u w

/-- The flow graph contains a (nonempty) directed cycle. -/
def HasCycle (g : Graph) : Prop := ∃ v, Reaches g.edges v v

/-! ## Concrete configurations used as test inputs -/

/-- A `Message` descriptor with the given `name`/`content` parameters and
flow targets. -/
def msgInfo (nm ct : String) (outs : List Nat) : NodeInfo :=
  ⟨"Message", [], ⟨nm, ct, none, false, none, none⟩, outs⟩

/-- A `DialogAgent` descriptor with the given flow targets. -/
def agentInfo (outs : List Nat) : NodeInfo :=
  ⟨"DialogAgent", [], noArgs, outs⟩

/-- A `SequentialPipeline` descriptor with the given contained elements and
flow targets. -/
def seqInfo (elems : List Nat) (outs : List Nat) : NodeInfo :=
  ⟨"SequentialPipeline", elems, noArgs, outs⟩

/-- A `CopyNode` descriptor with the given contained element and flow
targets. -/
def copyInfo (elems : List Nat) (outs : List Nat) : NodeInfo :=
  ⟨"CopyNode", elems, noArgs, outs⟩

/-- A `Placeholder` descriptor with the given flow targets. -/
def placeholderInfo (outs : List Nat) : NodeInfo :=
  ⟨"Placeholder", [], noArgs, outs⟩

/-- An `openai_chat` (Model-kind) descriptor. -/
def modelInfo : NodeInfo := ⟨"openai_chat", [], noArgs, []⟩

/-- The empty graph, used as the fallback when extracting a built graph. -/
def emptyGraph : Graph := ⟨[], [], [], [], [], []⟩

/-- Fan-in configuration: two `Message` nodes both flowing into one
`DialogAgent` node, so node 3 has two flow predecessors. -/
def cfgFanIn : Config :=
  [(1, msgInfo "A" "a" [3]), (2, msgInfo "B" "b" [3]), (3, agentInfo [])]

/-- The graph built from `cfgFanIn`. -/
def gFanIn : Graph := (build_dag cfgFanIn).toOption.getD emptyGraph

/-- Containment-chain configuration: a sequential pipeline (1) contains a
Copy node (2), which contains a DialogAgent (3). -/
def cfgContain : Config :=
  [(1, seqInfo [2] []), (2, copyInfo [3] []), (3, agentInfo [])]

/-- The graph built from `cfgContain`. -/
def gContain : Graph := (build_dag cfgContain).toOption.getD emptyGraph

/-- Excluded-cycle configuration: a sequential pipeline (1) contains two
agents (2 and 3) that form a flow cycle 2 → 3 → 2 among themselves. -/
def cfgExclCycle : Config :=
  [(1, seqInfo [2, 3] []), (2, agentInfo [3]), (3, agentInfo [2])]

/-- Excluded-to-included flow configuration: a sequential pipeline (1)
contains a Message node (2), and node 2 also has a flow edge to the
top-level Placeholder node (4).  The configuration is acyclic. -/
def cfgExclFlow : Config :=
  [(1, seqInfo [2] []), (2, msgInfo "M" "m" [4]), (4, placeholderInfo [])]

/-- The graph built from `cfgExclFlow`. -/
def gExclFlow : Graph := (build_dag cfgExclFlow).toOption.getD emptyGraph

/-- A configuration with one Model node and one Agent node (the agent
appears first in configuration order). -/
def cfgModelAgent : Config := [(7, agentInfo []), (8, modelInfo)]

/-- The graph built from `cfgModelAgent`. -/
def gModelAgent : Graph := (build_dag cfgModelAgent).toOption.getD emptyGraph

/-- A sequential pipeline node containing the same DialogAgent node twice
(the two list entries are the same memoized instance, as produced when a
descriptor's `elements` list repeats an id). -/
def dupAgentPipeline : Node :=
  Node.sequential 5 [Node.dialogAgent 1, Node.dialogAgent 1]

/-- The loop only reads `seen` through membership. -/
theorem rdeLoop_congr {α : Type} [DecidableEq α] (l : List α) :
    ∀ (s₁ s₂ : List α), (∀ x, x ∈ s₁ ↔ x ∈ s₂) → rdeLoop l s₁ = rdeLoop l s₂ := by
  induction l with
  | nil => intro s₁ s₂ _; rfl
  | cons a t ih =>
    intro s₁ s₂ h
    by_cases ha : a ∈ s₁
    · rw [rdeLoop, rdeLoop, if_pos ha, if_pos ((h a).mp ha), ih s₁ s₂ h]
    · rw [rdeLoop, rdeLoop, if_neg ha, if_neg (fun hc => ha ((h a).mpr hc))]
      have : ∀ x, x ∈ a :: s₁ ↔ x ∈ a :: s₂ := by
        intro x; simp only [List.mem_cons]; rw [h x]
      rw [ih _ _ this]

theorem rdeLoop_append {α : Type} [DecidableEq α] (l₁ : List α) :
    ∀ (l₂ seen : List α),
      rdeLoop (l₁ ++ l₂) seen = rdeLoop l₁ seen ++ rdeLoop l₂ (l₁ ++ seen) := by
  induction l₁ with
  | nil => intro l₂ seen; rfl
  | cons a t ih =>
    intro l₂ seen
    by_cases ha : a ∈ seen
    · rw [List.cons_append, rdeLoop, if_pos ha, ih, rdeLoop, if_pos ha]
      congr 1
      apply rdeLoop_congr
      intro x
      simp only [List.mem_append, List.mem_cons, List.cons_append]
      constructor
      · tauto
      · rintro (rfl | h | h)
        · exact Or.inr ha
        · exact Or.inl h
        · exact Or.inr h
    · rw [List.cons_append, rdeLoop, if_neg ha, ih, rdeLoop, if_neg ha, List.cons_append]
      congr 2
      apply rdeLoop_congr
      intro x
      simp only [List.mem_append, List.mem_cons, List.cons_append]
      tauto

theorem remove_duplicates_from_end_eq_keepLast {α : Type} [DecidableEq α] (l : List α) :
    remove_duplicates_from_end l = keepLastOccurrences l := by
  induction l with
  | nil => rfl
  | cons a t ih =>
    unfold remove_duplicates_from_end at *
    rw [List.reverse_cons, rdeLoop_append, List.reverse_append]
    have hone : rdeLoop [a] (t.reverse ++ []) = if a ∈ t then [] else [a] := by
      rw [rdeLoop]
      by_cases ha : a ∈ t <;> simp [ha, rdeLoop]
    rw [hone, keepLastOccurrences]
    by_cases ha : a ∈ t
    · rw [if_pos ha, if_pos ha]
      simp only [List.reverse_nil, List.nil_append]
      exact ih
    · rw [if_neg ha, if_neg ha]
      rw [show ([a] : List α).reverse = [a] from rfl, List.singleton_append]
      rw [ih]

theorem mem_keepLastOccurrences {α : Type} [DecidableEq α] (l : List α) (x : α) :
    x ∈ keepLastOccurrences l ↔ x ∈ l := by
  induction l with
  | nil => simp [keepLastOccurrences]
  | cons a t ih =>
    rw [keepLastOccurrences]
    by_cases ha : a ∈ t
    · rw [if_pos ha, ih]
      constructor
      · exact fun h => List.mem_cons_of_mem _ h
      · intro h
        rcases List.mem_cons.mp h with h' | h'
        · exact h' ▸ ha
        · exact h'
    · rw [if_neg ha]
      simp only [List.mem_cons, ih]

theorem nodup_keepLastOccurrences {α : Type} [DecidableEq α] (l : List α) :
    (keepLastOccurrences l).Nodup := by
  induction l with
  | nil => exact List.nodup_nil
  | cons a t ih =>
    rw [keepLastOccurrences]
    by_cases ha : a ∈ t
    · rwa [if_pos ha]
    · rw [if_neg ha]
      exact List.nodup_cons.mpr ⟨fun hc => ha ((mem_keepLastOccurrences t a).mp hc), ih⟩

/-! ## Claim C4: import deduplication -/

/-- C4 (confirmed): the deduplication pass used by `compile`
(`remove_duplicates_from_end`) keeps exactly one occurrence of each
distinct line, placed at the position of its last occurrence in the input
while preserving the relative order of the kept positions (formally: it
equals the filter keeping exactly the positions whose element does not
occur again later); in particular `[A, B, A, C]` yields `[B, A, C]`. -/
theorem c4_remove_duplicates :
    (∀ (l : List String),
      remove_duplicates_from_end l = keepLastOccurrences l ∧
      (∀ a, a ∈ remove_duplicates_from_end l ↔ a ∈ l) ∧
      (∀ a, (remove_duplicates_from_end l).count a = if a ∈ l then 1 else 0)) ∧
    remove_duplicates_from_end ["A", "B", "A", "C"] = ["B", "A", "C"] := by
  constructor
  · intro l
    refine ⟨remove_duplicates_from_end_eq_keepLast l, ?_, ?_⟩
    · intro a
      rw [remove_duplicates_from_end_eq_keepLast l]
      exact mem_keepLastOccurrences l a
    · intro a
      rw [remove_duplicates_from_end_eq_keepLast l]
      by_cases ha : a ∈ l
      · rw [if_pos ha]
        exact List.count_eq_one_of_mem (nodup_keepLastOccurrences l)
          ((mem_keepLastOccurrences l a).mpr ha)
      · rw [if_neg ha]
        exact List.count_eq_zero_of_not_mem
          (fun hc => ha ((mem_keepLastOccurrences l a).mp hc))
  · rfl

/-! ## Claim C10: Model and Service nodes execute to None -/

/-- C10 (confirmed): `ModelNode` and the five service node classes do not
override `WorkflowNode.__call__`, whose body is empty; calling such a node
with any input returns `None`, so its cached output passed to successors
is `None`. -/
theorem c10_model_service_none (fuel : Nat) (n : Node) (x : Value)
    (h : n.nodeType = WorkflowNodeType.model ∨ n.nodeType = WorkflowNodeType.service) :
    Node.callF (fuel + 1) n x = Value.vnone := by
  cases n <;> first
    | rfl
    | (simp only [Node.nodeType] at h; rcases h with h | h <;> cases h)

/-- Witness for C10: a model node and a service node evaluated at a
concrete input. -/
theorem c10_witness :
    Node.callF 1 (Node.model 0) (Value.vmsg "A" "a") = Value.vnone ∧
    Node.callF 1 (Node.bingSearch 4) Value.vnone = Value.vnone :=
  ⟨c10_model_service_none 0 (Node.model 0) (Value.vmsg "A" "a") (Or.inl rfl),
   c10_model_service_none 0 (Node.bingSearch 4) Value.vnone (Or.inr rfl)⟩

/-! ## Claim C3: get_all_agents does not deduplicate -/

/-- C3 (code bug): the recursive collection in `get_all_agents` tests
`participant not in seen_agents` but inserts `participant.pipeline` into
the set, so the membership test never fires and an agent reachable through
two paths of the containment tree is collected twice.  Here a MsgHub's
dependency pipeline containing the same agent node twice yields the agent
twice, and `MsgHubNode.__init__` stores that duplicated participant
list. -/
theorem c3_duplicate_agents :
    getAllAgents dupAgentPipeline =
      Except.ok [PyObj.wrapped 1, PyObj.wrapped 1] ∧
    mkNode NodeClass.msgHubNode 7 ⟨"", "", none, true, none, none⟩
        [dupAgentPipeline] =
      Except.ok (Node.msgHub 7 "Host" "Welcome!" dupAgentPipeline) := by
  exact ⟨rfl, rfl⟩

/-! ## Claim C6: switch arity -/

/-- C6 counterexample: with `N = 0` declared case labels, construction
with exactly `N` dependencies does not succeed: it trips
`assert 0 < len(self.dep_opts)`. -/
theorem c6_counterexample :
    mkNode NodeClass.switchPipelineNode 1 ⟨"", "", some [], false, none, none⟩ [] =
      Except.error BuildError.assertArity := rfl

/-- C6 (corrected): for a switch node whose declared case-label list is
`cases`: with at least one label, exactly `N = cases.length` dependencies
succeed with the `_placeholder` no-op standing in as default; exactly
`N + 1` dependencies succeed with the extra trailing dependency popped as
the default; any other count fails — zero dependencies trip the arity
assertion, any other mismatch raises the explicit `ValueError`. -/
theorem c6_switch_arity (nid : Nat) (args : NodeArgs) (cases : List String)
    (deps : List Node) (hc : args.cases = some cases) :
    (cases ≠ [] → deps.length = cases.length →
      mkNode NodeClass.switchPipelineNode nid args deps =
        Except.ok (Node.switch nid (cases.zip deps) none)) ∧
    (deps.length = cases.length + 1 →
      mkNode NodeClass.switchPipelineNode nid args deps =
        Except.ok (Node.switch nid (cases.zip deps.dropLast) deps.getLast?) ∧
      deps.getLast?.isSome = true) ∧
    (deps = [] → cases ≠ [] →
      mkNode NodeClass.switchPipelineNode nid args deps =
        Except.error BuildError.assertArity) ∧
    (deps ≠ [] → deps.length ≠ cases.length → deps.length ≠ cases.length + 1 →
      mkNode NodeClass.switchPipelineNode nid args deps =
        Except.error BuildError.configMismatch) := by
  have hunfold : mkNode NodeClass.switchPipelineNode nid args deps =
      mkSwitch nid cases deps := by
    simp only [mkNode, hc]
  refine ⟨?_, ?_, ?_, ?_⟩
  · intro hcne hlen
    have hne : deps.length ≠ 0 := by
      rw [hlen]
      exact fun h => hcne (List.eq_nil_of_length_eq_zero h)
    rw [hunfold, mkSwitch, if_neg hne, if_pos hlen]
  · intro hlen
    have hne : deps.length ≠ 0 := by omega
    have hne2 : deps.length ≠ cases.length := by omega
    refine ⟨?_, ?_⟩
    · rw [hunfold, mkSwitch, if_neg hne, if_neg hne2, if_pos hlen]
    · have : deps ≠ [] := fun h => hne (by rw [h]; rfl)
      rw [List.getLast?_isSome]
      exact this
  · intro hnil hcne
    have hzero : deps.length = 0 := by rw [hnil]; rfl
    rw [hunfold, mkSwitch, if_pos hzero]
  · intro hne hl1 hl2
    have hzero : deps.length ≠ 0 := fun h => hne (List.eq_nil_of_length_eq_zero h)
    rw [hunfold, mkSwitch, if_neg hzero, if_neg hl1, if_neg hl2]

/-- Witness for C6: one label with one dependency (placeholder default),
one label with two dependencies (trailing default), and a mismatched
count. -/
theorem c6_witness :
    mkNode NodeClass.switchPipelineNode 9 ⟨"", "", some ["x"], false, none, none⟩
        [Node.placeholder 4] =
      Except.ok (Node.switch 9 [("x", Node.placeholder 4)] none) ∧
    mkNode NodeClass.switchPipelineNode 9 ⟨"", "", some ["x"], false, none, none⟩
        [Node.placeholder 4, Node.placeholder 5] =
      Except.ok (Node.switch 9 [("x", Node.placeholder 4)] (some (Node.placeholder 5))) ∧
    mkNode NodeClass.switchPipelineNode 9 ⟨"", "", some ["x"], false, none, none⟩
        [Node.placeholder 4, Node.placeholder 5, Node.placeholder 6] =
      Except.error BuildError.configMismatch := by
  refine ⟨?_, ?_, ?_⟩
  · exact (c6_switch_arity 9 _ ["x"] [Node.placeholder 4] rfl).1
      (by decide) (by decide)
  · exact ((c6_switch_arity 9 _ ["x"] [Node.placeholder 4, Node.placeholder 5]
      rfl).2.1 (by decide)).1
  · exact (c6_switch_arity 9 _ ["x"]
      [Node.placeholder 4, Node.placeholder 5, Node.placeholder 6] rfl).2.2.2
      (List.cons_ne_nil _ _) (by decide) (by decide)

/-! ## Claim C9: node construction is memoized -/

/-- C9 (confirmed): `add_as_node` is idempotent: when the node id is
already in the graph, the call performs no construction, leaves the state
unchanged, and returns the instance stored on first construction. -/
theorem c9_idempotent (config : Config) (fuel : Nat) (st : DagState)
    (nid : Nat) (info : NodeInfo) (n : Node) (cls : NodeClass)
    (hname : NODE_NAME_MAPPING info.name = some cls)
    (hmem : lookupNode st.opts nid = some n) :
    addAsNode config (fuel + 1) st nid info = Except.ok (st, n) := by
  have hsupp : cls.nodeType ∈ [WorkflowNodeType.model, .agent, .message,
      .pipeline, .copy, .service] := by
    cases cls <;> simp [NodeClass.nodeType]
  unfold addAsNode
  rw [hname]
  simp only [Except.bind, hmem, pure, Except.pure, bind]
  rw [if_pos hsupp]

/-- Witness for C9: re-adding an already-present placeholder node returns
the stored instance and the unchanged state. -/
theorem c9_witness :
    addAsNode [] 1 ⟨[(5, Node.placeholder 5)], [], [.header], [.root, .flowVar]⟩
        5 (placeholderInfo []) =
      Except.ok (⟨[(5, Node.placeholder 5)], [], [.header], [.root, .flowVar]⟩, Node.placeholder 5) :=
  c9_idempotent [] 0 ⟨[(5, Node.placeholder 5)], [], [.header], [.root, .flowVar]⟩
    5 (placeholderInfo []) (Node.placeholder 5) NodeClass.placeholderNode rfl rfl

/-! ## Claim C1: fan-in does not raise -/

/-- C1 (code bug): in `ASDiGraph.run` the guard chain
`if not inputs: ... elif len(inputs): ... else: raise ValueError("Too many
predecessors!")` makes the raising branch unreachable.  On a graph whose
node 3 has two flow predecessors, `run` completes without error and
executes node 3 with the first predecessor's cached output, contradicting
the claimed `TooManyPredecessors` failure (and `run`'s own docstring). -/
theorem c1_fan_in_runs :
    build_dag cfgFanIn = Except.ok gFanIn ∧
    predsOf gFanIn 3 = [1, 2] ∧
    ASDiGraph.run gFanIn = Except.ok
      [(1, Value.vnone, Value.vmsg "A" "a"),
       (2, Value.vnone, Value.vmsg "B" "b"),
       (3, Value.vmsg "A" "a", Value.reply 3 (Value.vmsg "A" "a"))] := by
  exact ⟨rfl, rfl, rfl⟩

/-! ## Claim C2 counterexample: exclusion is keyed off the container -/

/-- C2 counterexample: in `cfgContain` the Copy node 2 appears in the
sequential container's containment list and is excluded even though its
own kind is Copy, while the DialogAgent node 3 appears in the Copy node's
containment list and is *not* excluded even though its kind is not Copy —
both directions of the claim fail. -/
theorem c2_counterexample :
    build_dag cfgContain = Except.ok gContain ∧
    (2 ∈ gContain.excluded ∧
      (lookupNode gContain.opts 2).map Node.nodeType = some WorkflowNodeType.copy) ∧
    (3 ∉ gContain.excluded ∧
      (lookupNode gContain.opts 3).map Node.nodeType = some WorkflowNodeType.agent ∧
      3 ∈ (lookupCfg cfgContain 2).elim [] NodeInfo.elements) := by
  refine ⟨rfl, ⟨?_, rfl⟩, ?_, rfl, ?_⟩ <;> decide

/-! ## Correctness of the topological sort (Kahn's algorithm) -/

theorem Reaches.head {edges : List (Nat × Nat)} {u v w : Nat}
    (h : (u, v) ∈ edges) (hr : Reaches edges v w) : Reaches edges u w := by
  induction hr with
  | single h2 => exact Reaches.tail (Reaches.single h) h2
  | tail _ h2 ih => exact Reaches.tail ih h2

theorem isSource_true_iff (edges : List (Nat × Nat)) (rem : List Nat) (v : Nat) :
    isSource edges rem v = true ↔ ∀ e ∈ edges, ¬ (e.1 ∈ rem ∧ e.2 = v) := by
  simp [isSource]

theorem isSource_not_true_iff (edges : List (Nat × Nat)) (rem : List Nat) (v : Nat) :
    ¬ (isSource edges rem v = true) ↔ ∃ e ∈ edges, e.1 ∈ rem ∧ e.2 = v := by
  rw [isSource_true_iff]
  push_neg
  constructor
  · rintro ⟨e, he, h1, h2⟩; exact ⟨e, he, h1, h2⟩
  · rintro ⟨e, he, h1, h2⟩; exact ⟨e, he, h1, h2⟩

theorem kahnAux_perm (edges : List (Nat × Nat)) :
    ∀ (fuel : Nat) (remaining l : List Nat),
      kahnAux edges fuel remaining = some l → l.Perm remaining := by
  intro fuel
  induction fuel with
  | zero =>
    intro remaining l h
    cases remaining with
    | nil => cases h; exact List.Perm.refl _
    | cons a t => cases h
  | succ fuel ih =>
    intro remaining l h
    cases remaining with
    | nil => cases h; exact List.Perm.refl _
    | cons a t =>
      rw [kahnAux] at h
      cases hf : (a :: t).find? (isSource edges (a :: t)) with
      | none => rw [hf] at h; cases h
      | some v =>
        rw [hf, Option.some_bind] at h
        obtain ⟨l', hrec, hl⟩ := Option.map_eq_some'.mp h
        subst hl
        have hv : v ∈ a :: t := List.mem_of_find?_eq_some hf
        exact ((ih _ _ hrec).cons v).trans (List.perm_cons_erase hv).symm

theorem kahnAux_indexOf_lt (edges : List (Nat × Nat)) :
    ∀ (fuel : Nat) (remaining l : List Nat) (u v : Nat),
      kahnAux edges fuel remaining = some l → (u, v) ∈ edges →
      u ∈ remaining → v ∈ remaining → l.indexOf u < l.indexOf v := by
  intro fuel
  induction fuel with
  | zero =>
    intro remaining l u v h he hu hv
    cases remaining with
    | nil => cases hu
    | cons a t => cases h
  | succ fuel ih =>
    intro remaining l u v h he hu hv
    cases remaining with
    | nil => cases hu
    | cons a t =>
      rw [kahnAux] at h
      cases hf : (a :: t).find? (isSource edges (a :: t)) with
      | none => rw [hf] at h; cases h
      | some s =>
        rw [hf, Option.some_bind] at h
        obtain ⟨l', hrec, hl⟩ := Option.map_eq_some'.mp h
        subst hl
        have hsrc : isSource edges (a :: t) s = true := List.find?_some hf
        have hsv : s ≠ v := by
          intro hcontra
          exact ((isSource_true_iff edges (a :: t) s).mp hsrc) (u, v) he
            ⟨hu, hcontra.symm⟩
        by_cases hsu : s = u
        · subst hsu
          rw [List.indexOf_cons_self]
          rw [List.indexOf_cons_ne _ hsv]
          exact Nat.succ_pos _
        · have hu' : u ∈ (a :: t).erase s :=
            (List.mem_erase_of_ne (fun h => hsu h.symm)).mpr hu
          have hv' : v ∈ (a :: t).erase s :=
            (List.mem_erase_of_ne (fun h => hsv h.symm)).mpr hv
          have := ih _ _ u v hrec he hu' hv'
          rw [List.indexOf_cons_ne _ hsu, List.indexOf_cons_ne _ hsv]
          exact Nat.succ_lt_succ this

/-- Every vertex of `S` having a predecessor inside `S` forces a cycle. -/
theorem pred_cycle (edges : List (Nat × Nat)) (S : List Nat) (hne : S ≠ [])
    (h : ∀ x ∈ S, ∃ u ∈ S, (u, x) ∈ edges) : ∃ v, Reaches edges v v := by
  classical
  let next : Nat → Nat := fun x => if hx : x ∈ S then (h x hx).choose else 0
  have hnext : ∀ x, x ∈ S → next x ∈ S ∧ (next x, x) ∈ edges := by
    intro x hx
    have := (h x hx).choose_spec
    simp only [next, dif_pos hx]
    exact ⟨this.1, this.2⟩
  let f : Nat → Nat := fun n => next^[n] (S.head hne)
  have hf : ∀ n, f n ∈ S := by
    intro n
    induction n with
    | zero => exact List.head_mem hne
    | succ n ihn =>
      show next^[n + 1] (S.head hne) ∈ S
      rw [Function.iterate_succ_apply']
      exact (hnext _ ihn).1
  have hfe : ∀ n, (f (n + 1), f n) ∈ edges := by
    intro n
    show (next^[n + 1] (S.head hne), f n) ∈ edges
    rw [Function.iterate_succ_apply']
    exact (hnext _ (hf n)).2
  have hreach : ∀ (d i : Nat), 1 ≤ d → Reaches edges (f (i + d)) (f i) := by
    intro d
    induction d with
    | zero => intro i h1; cases h1
    | succ d ihd =>
      intro i h1
      cases Nat.eq_or_lt_of_le h1 with
      | inl heq =>
        have : d = 0 := by omega
        subst this
        exact Reaches.single (hfe i)
      | inr hlt =>
        have hd1 : 1 ≤ d := by omega
        have : i + (d + 1) = (i + d) + 1 := by omega
        rw [this]
        exact Reaches.head (hfe (i + d)) (ihd i hd1)
  have hcard : S.toFinset.card < (Finset.range (S.length + 1)).card := by
    rw [Finset.card_range]
    exact Nat.lt_succ_of_le (List.toFinset_card_le S)
  have hmaps : ∀ n ∈ Finset.range (S.length + 1), f n ∈ S.toFinset := by
    intro n _
    exact List.mem_toFinset.mpr (hf n)
  obtain ⟨i, _, j, _, hij, hfij⟩ :=
    Finset.exists_ne_map_eq_of_card_lt_of_maps_to hcard hmaps
  rcases Nat.lt_or_ge i j with hlt | hge
  · refine ⟨f i, ?_⟩
    have hx := hreach (j - i) i (by omega)
    rw [show i + (j - i) = j from by omega] at hx
    rw [← hfij] at hx
    exact hx
  · have hlt : j < i := by omega
    refine ⟨f j, ?_⟩
    have hx := hreach (i - j) j (by omega)
    rw [show j + (i - j) = i from by omega] at hx
    rw [hfij] at hx
    exact hx

theorem kahnAux_none_cycle (edges : List (Nat × Nat)) :
    ∀ (fuel : Nat) (remaining : List Nat), remaining.length ≤ fuel →
      kahnAux edges fuel remaining = none → ∃ v, Reaches edges v v := by
  intro fuel
  induction fuel with
  | zero =>
    intro remaining hlen h
    cases remaining with
    | nil => cases h
    | cons a t => simp at hlen
  | succ fuel ih =>
    intro remaining hlen h
    cases remaining with
    | nil => cases h
    | cons a t =>
      rw [kahnAux] at h
      cases hf : (a :: t).find? (isSource edges (a :: t)) with
      | none =>
        apply pred_cycle edges (a :: t) (List.cons_ne_nil a t)
        intro x hx
        have hns := List.find?_eq_none.mp hf x hx
        obtain ⟨e, hemem, he1, he2⟩ :=
          (isSource_not_true_iff edges (a :: t) x).mp hns
        refine ⟨e.1, he1, ?_⟩
        have : e = (e.1, x) := by
          rw [← he2]
        rw [← this]
        exact hemem
      | some v =>
        rw [hf, Option.some_bind] at h
        cases hrec : kahnAux edges fuel ((a :: t).erase v) with
        | none =>
          apply ih ((a :: t).erase v) _ hrec
          have hv : v ∈ a :: t := List.mem_of_find?_eq_some hf
          have := List.length_erase_of_mem hv
          rw [this]
          simp only [List.length_cons] at hlen ⊢
          omega
        | some l' => rw [hrec] at h; cases h

/-- In a well-formed graph a reachability fact forces strictly increasing
positions in any topological order. -/
theorem reaches_indexOf_lt (g : Graph)
    (hwf : ∀ e ∈ g.edges, e.1 ∈ g.nodeIds ∧ e.2 ∈ g.nodeIds)
    (l : List Nat) (hk : kahn g = some l) {u v : Nat}
    (hr : Reaches g.edges u v) : l.indexOf u < l.indexOf v := by
  induction hr with
  | single h =>
    exact kahnAux_indexOf_lt g.edges _ _ _ _ _ hk h
      (hwf _ h).1 (hwf _ h).2
  | tail hr' h ih =>
    exact ih.trans (kahnAux_indexOf_lt g.edges _ _ _ _ _ hk h
      (hwf _ h).1 (hwf _ h).2)

/-- networkx contract: the topological sort succeeds exactly when the
graph has no directed cycle. -/
theorem kahn_isSome_iff (g : Graph)
    (hwf : ∀ e ∈ g.edges, e.1 ∈ g.nodeIds ∧ e.2 ∈ g.nodeIds) :
    (kahn g).isSome ↔ ¬ HasCycle g := by
  constructor
  · intro hs hcyc
    obtain ⟨l, hl⟩ := Option.isSome_iff_exists.mp hs
    obtain ⟨v, hv⟩ := hcyc
    exact Nat.lt_irrefl _ (reaches_indexOf_lt g hwf l hl hv)
  · intro hnc
    by_contra hns
    have hnone : kahn g = none := Option.not_isSome_iff_eq_none.mp hns
    exact hnc (kahnAux_none_cycle g.edges _ _ (Nat.le_refl _) hnone)

/-! ## Builder state bookkeeping lemmas -/

theorem lookupNode_cons (e : Nat × Node) (t : List (Nat × Node)) (i : Nat) :
    lookupNode (e :: t) i = if e.1 = i then some e.2 else lookupNode t i := by
  by_cases he : e.1 = i
  · simp only [lookupNode, List.find?,
      show decide (e.1 = i) = true from by simpa using he]
    rw [if_pos he]
    rfl
  · simp only [lookupNode, List.find?,
      show decide (e.1 = i) = false from by simpa using he]
    rw [if_neg he]

theorem lookupNode_isSome_iff_mem (opts : List (Nat × Node)) (i : Nat) :
    (lookupNode opts i).isSome = true ↔ i ∈ opts.map Prod.fst := by
  induction opts with
  | nil => simp [lookupNode]
  | cons e t ih =>
    rw [lookupNode_cons]
    by_cases he : e.1 = i
    · simp [he]
    · rw [if_neg he]
      simp only [List.map_cons, List.mem_cons, ih]
      constructor
      · exact Or.inr
      · rintro (hc | hc)
        · exact absurd hc.symm he
        · exact hc

theorem insertNode_lookup_self (opts : List (Nat × Node)) (nid : Nat) (n : Node) :
    lookupNode (insertNode opts nid n) nid = some n := by
  induction opts with
  | nil => simp [insertNode, lookupNode_cons]
  | cons e t ih =>
    by_cases he : e.1 = nid
    · rw [insertNode, if_pos he, lookupNode_cons, if_pos rfl]
    · rw [insertNode, if_neg he, lookupNode_cons, if_neg he]
      exact ih

theorem insertNode_lookup_ne (opts : List (Nat × Node)) (nid : Nat) (n : Node)
    (i : Nat) (h : ¬ i = nid) :
    lookupNode (insertNode opts nid n) i = lookupNode opts i := by
  induction opts with
  | nil =>
    rw [insertNode, lookupNode_cons, if_neg (fun hc : nid = i => h hc.symm)]
  | cons e t ih =>
    by_cases he : e.1 = nid
    · rw [insertNode, if_pos he, lookupNode_cons, lookupNode_cons,
        if_neg (fun hc : nid = i => h hc.symm),
        if_neg (show ¬ e.1 = i from by rw [he]; exact fun hc => h hc.symm)]
    · rw [insertNode, if_neg he, lookupNode_cons, lookupNode_cons]
      by_cases hei : e.1 = i
      · rw [if_pos hei, if_pos hei]
      · rw [if_neg hei, if_neg hei]
        exact ih

theorem insertNode_keys (opts : List (Nat × Node)) (nid : Nat) (n : Node) :
    (insertNode opts nid n).map Prod.fst = opts.map Prod.fst ∨
    (insertNode opts nid n).map Prod.fst = opts.map Prod.fst ++ [nid] := by
  induction opts with
  | nil => right; rfl
  | cons e t ih =>
    by_cases he : e.1 = nid
    · left; simp [insertNode, he]
    · rw [insertNode, if_neg he]
      rcases ih with ih | ih
      · left; simp [ih]
      · right; simp [ih]

theorem insertNode_keys_nodup (opts : List (Nat × Node)) (nid : Nat) (n : Node)
    (h : (opts.map Prod.fst).Nodup) :
    ((insertNode opts nid n).map Prod.fst).Nodup := by
  induction opts with
  | nil => simp [insertNode]
  | cons e t ih =>
    simp only [List.map_cons, List.nodup_cons] at h
    by_cases he : e.1 = nid
    · rw [insertNode, if_pos he]
      simp only [List.map_cons, List.nodup_cons]
      exact ⟨he ▸ h.1, h.2⟩
    · rw [insertNode, if_neg he]
      simp only [List.map_cons, List.nodup_cons]
      refine ⟨?_, ih h.2⟩
      rcases insertNode_keys t nid n with hk | hk
      · rw [hk]; exact h.1
      · rw [hk]
        simp only [List.mem_append, List.mem_singleton]
        rintro (hc | hc)
        · exact h.1 hc
        · exact he (hc ▸ rfl)

theorem unionList_append (s new : List Nat) :
    ∃ t, unionList s new = s ++ t := ⟨_, rfl⟩

theorem mem_unionList (s new : List Nat) (i : Nat) :
    i ∈ unionList s new ↔ i ∈ s ∨ i ∈ new := by
  simp only [unionList, List.mem_append, List.mem_filter, decide_eq_true_eq]
  constructor
  · rintro (h | ⟨h, _⟩)
    · exact Or.inl h
    · exact Or.inr h
  · rintro (h | h)
    · exact Or.inl h
    · by_cases hs : i ∈ s
      · exact Or.inl hs
      · exact Or.inr ⟨h, hs⟩

theorem transferB_rfl (s : DagState) : TransferB s s :=
  ⟨fun _ h => h, ⟨[], (List.append_nil _).symm⟩, id, id⟩

theorem transferB_trans {a b c : DagState} (h1 : TransferB a b) (h2 : TransferB b c) :
    TransferB a c := by
  obtain ⟨k1, ⟨t1, e1⟩, i1, n1⟩ := h1
  obtain ⟨k2, ⟨t2, e2⟩, i2, n2⟩ := h2
  exact ⟨fun i h => k2 i (k1 i h), ⟨t1 ++ t2, by rw [e2, e1, List.append_assoc]⟩,
    fun h => i2 (i1 h), fun h => n2 (n1 h)⟩

theorem transferC_rfl (config : Config) (s : DagState) : TransferC config s s :=
  ⟨fun h => h, id⟩

theorem transferC_trans {config : Config} {a b c : DagState}
    (h1 : TransferC config a b) (h2 : TransferC config b c) :
    TransferC config a c :=
  ⟨fun h => h2.1 (h1.1 h), fun h => h2.2 (h1.2 h)⟩

theorem InitsOk_initial : InitsOk [InitStmt.root, InitStmt.flowVar] :=
  ⟨[], [], rfl, fun _ h => absurd h (List.not_mem_nil _), fun _ h => absurd h (List.not_mem_nil _)⟩

theorem InitsOk_insertAt1 (l : List InitStmt) (x : InitStmt)
    (h : InitsOk l) (hx : ModelFrag x) : InitsOk (insertAt1 x l) := by
  obtain ⟨ms, ns, rfl, hms, hns⟩ := h
  refine ⟨x :: ms, ns, rfl, ?_, hns⟩
  intro s hs
  rcases List.mem_cons.mp hs with rfl | hs
  · exact hx
  · exact hms s hs

theorem InitsOk_append (l : List InitStmt) (x : InitStmt)
    (h : InitsOk l) (hx : NonModelFrag x) : InitsOk (l ++ [x]) := by
  obtain ⟨ms, ns, rfl, hms, hns⟩ := h
  refine ⟨ms, ns ++ [x], by simp, hms, ?_⟩
  intro s hs
  rcases List.mem_append.mp hs with hs | hs
  · exact hns s hs
  · rcases List.mem_singleton.mp hs with rfl
    exact hx

theorem exceptBind_ok {ε α β : Type} (x : Except ε α) (k : α → Except ε β) (b : β)
    (h : x >>= k = Except.ok b) : ∃ a, x = Except.ok a ∧ k a = Except.ok b := by
  cases x with
  | error e => cases h
  | ok a => exact ⟨a, rfl, h⟩

theorem exceptBind_ok_intro {ε α β : Type} (x : Except ε α) (k : α → Except ε β)
    (a : α) (b : β) (hx : x = Except.ok a) (hk : k a = Except.ok b) :
    x >>= k = Except.ok b := by
  rw [hx]
  exact hk

theorem lookupCfg_cons (e : Nat × NodeInfo) (t : Config) (i : Nat) :
    lookupCfg (e :: t) i = if e.1 = i then some e.2 else lookupCfg t i := by
  by_cases he : e.1 = i
  · simp only [lookupCfg, List.find?,
      show decide (e.1 = i) = true from by simpa using he]
    rw [if_pos he]
    rfl
  · simp only [lookupCfg, List.find?,
      show decide (e.1 = i) = false from by simpa using he]
    rw [if_neg he]

theorem lookupCfg_mem (config : Config) (i : Nat) (info : NodeInfo)
    (h : lookupCfg config i = some info) : (i, info) ∈ config := by
  induction config with
  | nil => cases h
  | cons e t ih =>
    rw [lookupCfg_cons] at h
    by_cases he : e.1 = i
    · rw [if_pos he] at h
      cases h
      have : (i, e.2) = e := by
        rw [← he]
      rw [this]
      exact List.mem_cons_self _ _
    · rw [if_neg he] at h
      exact List.mem_cons_of_mem _ (ih h)

theorem lookupCfg_eq_of_mem (config : Config)
    (hnodup : (config.map Prod.fst).Nodup) (e : Nat × NodeInfo)
    (hmem : e ∈ config) : lookupCfg config e.1 = some e.2 := by
  induction config with
  | nil => cases hmem
  | cons f t ih =>
    simp only [List.map_cons, List.nodup_cons] at hnodup
    rw [lookupCfg_cons]
    rcases List.mem_cons.mp hmem with rfl | hmem
    · rw [if_pos rfl]
    · by_cases hf : f.1 = e.1
      · exfalso
        apply hnodup.1
        rw [hf]
        exact List.mem_map_of_mem Prod.fst hmem
      · rw [if_neg hf]
        exact ih hnodup.2 hmem

/-- Generic transfer lemma for an `Except`-valued fold over dependency ids. -/
theorem foldlM_transfer (config : Config)
    (stepFn : DagState × List Node → Nat → Except BuildError (DagState × List Node))
    (hstep : ∀ acc d out, stepFn acc d = Except.ok out →
      TransferB acc.1 out.1 ∧
      ((config.map Prod.fst).Nodup → TransferC config acc.1 out.1)) :
    ∀ (ds : List Nat) (acc out : DagState × List Node),
      ds.foldlM stepFn acc = Except.ok out →
      TransferB acc.1 out.1 ∧
      ((config.map Prod.fst).Nodup → TransferC config acc.1 out.1) := by
  intro ds
  induction ds with
  | nil =>
    intro acc out h
    cases h
    exact ⟨transferB_rfl _, fun _ => transferC_rfl _ _⟩
  | cons d rest ih =>
    intro acc out h
    rw [List.foldlM_cons] at h
    obtain ⟨acc1, hs, h⟩ := exceptBind_ok _ _ _ h
    obtain ⟨hb1, hc1⟩ := hstep acc d acc1 hs
    obtain ⟨hb2, hc2⟩ := ih acc1 out h
    exact ⟨transferB_trans hb1 hb2, fun hn => transferC_trans (hc1 hn) (hc2 hn)⟩

theorem depStepF_spec (config : Config)
    (recur : DagState → Nat → NodeInfo → Except BuildError (DagState × Node))
    (hrec : ∀ st nid info st' n, recur st nid info = Except.ok (st', n) →
      TransferB st st' ∧ lookupNode st'.opts nid = some n ∧
      ((config.map Prod.fst).Nodup → lookupCfg config nid = some info →
        TransferC config st st')) :
    ∀ acc d out, depStepF config recur acc d = Except.ok out →
      TransferB acc.1 out.1 ∧
      ((config.map Prod.fst).Nodup → TransferC config acc.1 out.1) := by
  intro acc d out hs
  unfold depStepF at hs
  cases hlkd : lookupNode acc.1.opts d with
  | some d0 =>
    rw [hlkd] at hs
    obtain ⟨stm, h1, h2⟩ := exceptBind_ok _ _ _ hs
    cases h1
    simp only [] at h2
    rw [hlkd] at h2
    cases h2
    exact ⟨transferB_rfl _, fun _ => transferC_rfl _ _⟩
  | none =>
    rw [hlkd] at hs
    cases hcfgd : lookupCfg config d with
    | none => rw [hcfgd] at hs; cases hs
    | some depInfo =>
      rw [hcfgd] at hs
      obtain ⟨⟨stN, nN⟩, hrecEq, h2⟩ := exceptBind_ok _ _ _ hs
      obtain ⟨stm, h3, h4⟩ := exceptBind_ok _ _ _ h2
      cases h3
      obtain ⟨hbN, hlkN, hcN⟩ := hrec acc.1 d depInfo stN nN hrecEq
      simp only [] at h4
      rw [hlkN] at h4
      cases h4
      exact ⟨hbN, fun hn => hcN hn hcfgd⟩

theorem addAsNode_spec (config : Config) :
    ∀ (fuel : Nat) (st : DagState) (nid : Nat) (info : NodeInfo)
      (st' : DagState) (n : Node),
      addAsNode config fuel st nid info = Except.ok (st', n) →
      TransferB st st' ∧ lookupNode st'.opts nid = some n ∧
      ((config.map Prod.fst).Nodup → lookupCfg config nid = some info →
        TransferC config st st') := by
  intro fuel
  induction fuel with
  | zero => intro st nid info st' n h; cases h
  | succ fuel ih =>
    intro st nid info st' n h
    unfold addAsNode at h
    cases hm : NODE_NAME_MAPPING info.name with
    | none => rw [hm] at h; cases h
    | some cls0 =>
      rw [hm] at h
      obtain ⟨cls, hcls, h⟩ := exceptBind_ok _ _ _ h
      cases hcls
      have hsupp : cls0.nodeType ∈ [WorkflowNodeType.model, .agent, .message,
          .pipeline, .copy, .service] := by
        cases cls0 <;> simp [NodeClass.nodeType]
      simp only [] at h
      rw [if_pos hsupp] at h
      cases hlk : lookupNode st.opts nid with
      | some n0 =>
        rw [hlk] at h
        cases h
        exact ⟨transferB_rfl st, hlk, fun _ _ => transferC_rfl config st⟩
      | none =>
        rw [hlk] at h
        obtain ⟨⟨stD, depOpts⟩, hfold, h⟩ := exceptBind_ok _ _ _ h
        obtain ⟨nodeOpt, hmk, h⟩ := exceptBind_ok _ _ _ h
        cases h
        -- the state after the exclusion-marking step
        have hbase : TransferB st
            (if cls0.nodeType ≠ WorkflowNodeType.copy then
              (⟨st.opts, unionList st.excluded info.elements,
                st.imports, st.inits⟩ : DagState)
            else st) := by
          by_cases hcopy : cls0.nodeType ≠ WorkflowNodeType.copy
          · rw [if_pos hcopy]
            exact ⟨fun _ h => h, unionList_append _ _, id, id⟩
          · rw [if_neg hcopy]
            exact transferB_rfl st
        obtain ⟨hbF, hcF⟩ := foldlM_transfer config _
          (depStepF_spec config _ ih) info.elements _ _ hfold
        refine ⟨?_, ?_, ?_⟩
        · refine transferB_trans (transferB_trans hbase hbF) ?_
          refine ⟨?_, ⟨[], (List.append_nil _).symm⟩, ?_, ?_⟩
          · intro i hi
            by_cases hieq : i = nid
            · subst hieq
              rw [insertNode_lookup_self]
              rfl
            · rw [insertNode_lookup_ne _ _ _ _ hieq]
              exact hi
          · intro hok
            by_cases hmodel : cls0.nodeType = WorkflowNodeType.model
            · rw [if_pos hmodel]
              exact InitsOk_insertAt1 _ _ hok ⟨nid, by rw [hmodel]⟩
            · rw [if_neg hmodel]
              exact InitsOk_append _ _ hok ⟨nid, cls0.nodeType, rfl, hmodel⟩
          · exact fun hn => insertNode_keys_nodup _ _ _ hn
        · exact insertNode_lookup_self _ _ _
        · intro hnodup hcfg
          have hexcl1 : TransferC config st
              (if cls0.nodeType ≠ WorkflowNodeType.copy then
                (⟨st.opts, unionList st.excluded info.elements,
                  st.imports, st.inits⟩ : DagState)
              else st) := by
            by_cases hcopy : cls0.nodeType ≠ WorkflowNodeType.copy
            · rw [if_pos hcopy]
              constructor
              · intro hJ i hi
                rcases (mem_unionList _ _ _).mp hi with hi | hi
                · exact hJ i hi
                · exact ⟨(nid, info), lookupCfg_mem config nid info hcfg, hi,
                    cls0, hm, hcopy⟩
              · intro hC e he hsome cls1 hcls1 hcls1c i hielem
                exact (mem_unionList _ _ _).mpr
                  (Or.inl (hC e he hsome cls1 hcls1 hcls1c i hielem))
            · rw [if_neg hcopy]
              exact transferC_rfl config st
          refine transferC_trans (transferC_trans hexcl1 (hcF hnodup)) ?_
          constructor
          · exact fun hJ => hJ
          · -- CompInv across the final node insertion
            intro hC e he hsome cls1 hcls1 hcls1c i hielem
            by_cases henid : e.1 = nid
            · -- the freshly inserted node: its elements were unioned upfront
              have heq : e.2 = info := by
                have h1 := lookupCfg_eq_of_mem config hnodup e he
                rw [henid] at h1
                rw [h1] at hcfg
                exact (Option.some.injEq _ _).mp hcfg
              have hcls0 : cls1 = cls0 := by
                rw [heq] at hcls1
                rw [hcls1] at hm
                exact (Option.some.injEq _ _).mp hm
              have hnc : cls0.nodeType ≠ WorkflowNodeType.copy := by
                rw [← hcls0]
                exact hcls1c
              have hmem1 : i ∈ unionList st.excluded info.elements := by
                apply (mem_unionList _ _ _).mpr
                right
                rw [← heq]
                exact hielem
              -- the fold only extends the excluded set
              obtain ⟨-, ⟨t2, ht2⟩, -, -⟩ := hbF
              show i ∈ stD.excluded
              rw [ht2]
              apply List.mem_append_left
              rw [if_pos hnc]
              exact hmem1
            · -- an older node: its lookup and obligations carry over
              have hsome' : (lookupNode stD.opts e.1).isSome = true := by
                rw [insertNode_lookup_ne _ _ _ _ henid] at hsome
                exact hsome
              exact hC e he hsome' cls1 hcls1 hcls1c i hielem

theorem foldEntries_spec (config : Config) (entries : List (Nat × NodeInfo)) :
    ∀ (st0 st' : DagState),
      entries.foldlM (fun st e => do
        let (st', _) ← addAsNode config (config.length + 1) st e.1 e.2
        pure st') st0 = Except.ok st' →
      TransferB st0 st' ∧
      ((config.map Prod.fst).Nodup →
        (∀ e ∈ entries, lookupCfg config e.1 = some e.2) →
        TransferC config st0 st') ∧
      (∀ e ∈ entries, (lookupNode st'.opts e.1).isSome = true) := by
  induction entries with
  | nil =>
    intro st0 st' h
    cases h
    exact ⟨transferB_rfl _, fun _ _ => transferC_rfl _ _,
      fun e he => absurd he (List.not_mem_nil e)⟩
  | cons a rest ih =>
    intro st0 st' h
    rw [List.foldlM_cons] at h
    obtain ⟨st1, hstep, h⟩ := exceptBind_ok _ _ _ h
    obtain ⟨⟨stA, nA⟩, hadd, hstep2⟩ := exceptBind_ok _ _ _ hstep
    cases hstep2
    obtain ⟨hb1, hlk1, hc1⟩ := addAsNode_spec config _ _ _ _ _ _ hadd
    obtain ⟨hb2, hc2, hpres⟩ := ih _ st' h
    refine ⟨transferB_trans hb1 hb2, ?_, ?_⟩
    · intro hn hcfg
      exact transferC_trans (hc1 hn (hcfg a (List.mem_cons_self a rest)))
        (hc2 hn (fun e he => hcfg e (List.mem_cons_of_mem _ he)))
    · intro e he
      rcases List.mem_cons.mp he with rfl | he
      · exact hb2.1 _ (by rw [hlk1]; rfl)
      · exact hpres e he

theorem buildNodes_spec (config : Config) (st : DagState)
    (h : buildNodes config = Except.ok st) :
    TransferB initialState st ∧
    ((config.map Prod.fst).Nodup →
      TransferC config initialState st ∧
      ∀ e ∈ config, (lookupNode st.opts e.1).isSome = true) := by
  unfold buildNodes at h
  obtain ⟨stM, h1, h2⟩ := exceptBind_ok _ _ _ h
  obtain ⟨hb1, hc1, hp1⟩ := foldEntries_spec config _ _ _ h1
  obtain ⟨hb2, hc2, hp2⟩ := foldEntries_spec config _ _ _ h2
  have hall : (config.map Prod.fst).Nodup →
      ∀ e ∈ config, lookupCfg config e.1 = some e.2 :=
    fun hn e he => lookupCfg_eq_of_mem config hn e he
  refine ⟨transferB_trans hb1 hb2, fun hn => ⟨?_, ?_⟩⟩
  · exact transferC_trans (hc1 hn (fun e he => hall hn e (List.mem_of_mem_filter he)))
      (hc2 hn (fun e he => hall hn e (List.mem_of_mem_filter he)))
  · intro e he
    by_cases hev : isModelEntry e = true
    · exact hb2.1 _ (hp1 e (List.mem_filter.mpr ⟨he, hev⟩))
    · refine hp2 e (List.mem_filter.mpr ⟨he, ?_⟩)
      simp only [decide_eq_true_eq]
      exact hev

theorem addNodeId_fields (g : Graph) (u : Nat) :
    (addNodeId g u).opts = g.opts ∧ (addNodeId g u).excluded = g.excluded ∧
    (addNodeId g u).inits = g.inits ∧ (addNodeId g u).edges = g.edges := by
  unfold addNodeId
  split_ifs <;> exact ⟨rfl, rfl, rfl, rfl⟩

theorem addEdgeRaw_fields (g : Graph) (u v : Nat) :
    (addEdgeRaw g u v).opts = g.opts ∧ (addEdgeRaw g u v).excluded = g.excluded ∧
    (addEdgeRaw g u v).inits = g.inits ∧ (addEdgeRaw g u v).nodeIds = g.nodeIds := by
  unfold addEdgeRaw
  split_ifs <;> exact ⟨rfl, rfl, rfl, rfl⟩

theorem addNodeId_mem_self (g : Graph) (u : Nat) : u ∈ (addNodeId g u).nodeIds := by
  unfold addNodeId
  split_ifs with h
  · exact h
  · exact List.mem_append_right _ (List.mem_singleton_self u)

theorem addNodeId_mono (g : Graph) (u : Nat) :
    ∀ x ∈ g.nodeIds, x ∈ (addNodeId g u).nodeIds := by
  unfold addNodeId
  split_ifs with h
  · exact fun x hx => hx
  · exact fun x hx => List.mem_append_left _ hx

theorem addEdgeRaw_edges (g : Graph) (u v : Nat) :
    ∀ e ∈ (addEdgeRaw g u v).edges, e ∈ g.edges ∨ e = (u, v) := by
  unfold addEdgeRaw
  split_ifs with h
  · exact fun e he => Or.inl he
  · intro e he
    rcases List.mem_append.mp he with he | he
    · exact Or.inl he
    · exact Or.inr (List.mem_singleton.mp he)

theorem addEdge_fields (g : Graph) (u v : Nat) :
    (addEdge g u v).opts = g.opts ∧ (addEdge g u v).excluded = g.excluded ∧
    (addEdge g u v).inits = g.inits := by
  unfold addEdge
  obtain ⟨r1, r2, r3, _⟩ := addEdgeRaw_fields (addNodeId (addNodeId g u) v) u v
  obtain ⟨n1, n2, n3, _⟩ := addNodeId_fields (addNodeId g u) v
  obtain ⟨m1, m2, m3, _⟩ := addNodeId_fields g u
  exact ⟨(r1.trans n1).trans m1, (r2.trans n2).trans m2, (r3.trans n3).trans m3⟩

theorem foldEdge_fields (l : List Nat) (u : Nat) :
    ∀ g : Graph, ((l.foldl (fun g t => addEdge g u t) g).opts = g.opts ∧
      (l.foldl (fun g t => addEdge g u t) g).excluded = g.excluded ∧
      (l.foldl (fun g t => addEdge g u t) g).inits = g.inits) := by
  induction l with
  | nil => intro g; exact ⟨rfl, rfl, rfl⟩
  | cons a t ih =>
    intro g
    rw [List.foldl_cons]
    obtain ⟨h1, h2, h3⟩ := ih (addEdge g u a)
    obtain ⟨g1, g2, g3⟩ := addEdge_fields g u a
    exact ⟨h1.trans g1, h2.trans g2, h3.trans g3⟩

theorem addEdges_fields (st : DagState) (config : Config) :
    (addEdges st config).opts = st.opts ∧
    (addEdges st config).excluded = st.excluded ∧
    (addEdges st config).inits = st.inits := by
  unfold addEdges
  generalize hg0 : (⟨st.opts.map Prod.fst, [], st.opts, st.excluded,
    st.imports, st.inits⟩ : Graph) = g0
  have hbase : g0.opts = st.opts ∧ g0.excluded = st.excluded ∧ g0.inits = st.inits := by
    rw [← hg0]
    exact ⟨rfl, rfl, rfl⟩
  clear hg0
  induction config generalizing g0 with
  | nil => exact hbase
  | cons e rest ih =>
    rw [List.foldl_cons]
    apply ih
    obtain ⟨h1, h2, h3⟩ := foldEdge_fields e.2.outputs e.1 g0
    exact ⟨h1.trans hbase.1, h2.trans hbase.2.1, h3.trans hbase.2.2⟩

theorem addEdge_wf (g : Graph) (u v : Nat)
    (hwf : ∀ e ∈ g.edges, e.1 ∈ g.nodeIds ∧ e.2 ∈ g.nodeIds) :
    ∀ e ∈ (addEdge g u v).edges,
      e.1 ∈ (addEdge g u v).nodeIds ∧ e.2 ∈ (addEdge g u v).nodeIds := by
  intro e he
  have hnode : (addEdge g u v).nodeIds = (addNodeId (addNodeId g u) v).nodeIds :=
    (addEdgeRaw_fields _ u v).2.2.2
  have hmono : ∀ x ∈ g.nodeIds, x ∈ (addNodeId (addNodeId g u) v).nodeIds :=
    fun x hx => addNodeId_mono _ v x (addNodeId_mono g u x hx)
  have hedges : (addNodeId (addNodeId g u) v).edges = g.edges := by
    obtain ⟨_, _, _, h1⟩ := addNodeId_fields (addNodeId g u) v
    obtain ⟨_, _, _, h2⟩ := addNodeId_fields g u
    exact h1.trans h2
  have he' := addEdgeRaw_edges (addNodeId (addNodeId g u) v) u v e he
  rw [hedges] at he'
  rw [hnode]
  rcases he' with he' | rfl
  · rcases hwf e he' with ⟨ha, hb⟩
    exact ⟨hmono _ ha, hmono _ hb⟩
  · exact ⟨addNodeId_mono _ v u (addNodeId_mem_self g u), addNodeId_mem_self _ v⟩

theorem foldEdge_wf (l : List Nat) (u : Nat) :
    ∀ g : Graph, (∀ e ∈ g.edges, e.1 ∈ g.nodeIds ∧ e.2 ∈ g.nodeIds) →
      ∀ e ∈ (l.foldl (fun g t => addEdge g u t) g).edges,
        e.1 ∈ (l.foldl (fun g t => addEdge g u t) g).nodeIds ∧
        e.2 ∈ (l.foldl (fun g t => addEdge g u t) g).nodeIds := by
  induction l with
  | nil => intro g hwf; exact hwf
  | cons a t ih =>
    intro g hwf
    rw [List.foldl_cons]
    exact ih _ (addEdge_wf g u a hwf)

theorem addEdges_wf (st : DagState) (config : Config) :
    ∀ e ∈ (addEdges st config).edges,
      e.1 ∈ (addEdges st config).nodeIds ∧ e.2 ∈ (addEdges st config).nodeIds := by
  unfold addEdges
  generalize hg0 : (⟨st.opts.map Prod.fst, [], st.opts, st.excluded,
    st.imports, st.inits⟩ : Graph) = g0
  have hbase : ∀ e ∈ g0.edges, e.1 ∈ g0.nodeIds ∧ e.2 ∈ g0.nodeIds := by
    rw [← hg0]
    intro e he
    cases he
  clear hg0
  induction config generalizing g0 with
  | nil => exact hbase
  | cons e rest ih =>
    rw [List.foldl_cons]
    exact ih _ (foldEdge_wf e.2.outputs e.1 g0 hbase)

theorem build_dag_ok_inv (config : Config) (g : Graph)
    (h : build_dag config = Except.ok g) :
    ∃ st, buildNodes config = Except.ok st ∧ g = addEdges st config ∧
      (kahn g).isSome = true := by
  unfold build_dag at h
  obtain ⟨st, h1, h2⟩ := exceptBind_ok _ _ _ h
  refine ⟨st, h1, ?_⟩
  simp only [] at h2
  by_cases hk : (kahn (addEdges st config)).isSome = true
  · rw [if_pos hk] at h2
    cases h2
    exact ⟨rfl, hk⟩
  · rw [if_neg hk] at h2
    cases h2

/-! ## Claim C2: exclusion from top-level scheduling -/

/-- C2 (corrected): after a successful build, a node id is excluded from
top-level flow scheduling exactly when it appears in the containment list
of some descriptor whose *own* (container) kind is not Copy.  The
contained node's kind is irrelevant: a Copy node contained by a non-Copy
container is excluded, and any node contained only by a Copy container
stays schedulable. -/
theorem c2_excluded_iff (config : Config) (g : Graph)
    (hnodup : (config.map Prod.fst).Nodup)
    (hb : build_dag config = Except.ok g) :
    ∀ i, i ∈ g.excluded ↔ Excludes config i := by
  obtain ⟨st, hn, rfl, _⟩ := build_dag_ok_inv config g hb
  obtain ⟨hbB, hrest⟩ := buildNodes_spec config st hn
  obtain ⟨hC, hpres⟩ := hrest hnodup
  obtain ⟨_, hexcl, _⟩ := addEdges_fields st config
  intro i
  rw [hexcl]
  constructor
  · intro hi
    refine hC.1 ?_ i hi
    intro j hj
    exact absurd hj (List.not_mem_nil j)
  · rintro ⟨e, he, hielem, cls, hcls, hclsnc⟩
    have hCI : CompInv config st := by
      apply hC.2
      intro e' _ hsome
      rw [show lookupNode initialState.opts e'.1 = none from rfl] at hsome
      cases hsome
    exact hCI e he (hpres e he) cls hcls hclsnc i hielem

/-- Witness for C2: in the containment-chain configuration, the Copy node
2 is excluded (it is contained by the non-Copy sequential container 1)
while the agent 3 is not (its only container, 2, is a Copy node). -/
theorem c2_witness :
    (2 ∈ gContain.excluded ↔ Excludes cfgContain 2) ∧
    (3 ∈ gContain.excluded ↔ Excludes cfgContain 3) :=
  ⟨c2_excluded_iff cfgContain gContain (by decide) rfl 2,
   c2_excluded_iff cfgContain gContain (by decide) rfl 3⟩

theorem reachesTwo (edges : List (Nat × Nat)) (a b c : Nat)
    (h1 : (a, b) ∈ edges) (h2 : (b, c) ∈ edges) : Reaches edges a c :=
  Reaches.tail (Reaches.single h1) h2

/-! ## Claim C5: the cyclicity check runs on the whole graph -/

/-- C5 counterexample: in `cfgExclCycle` the only flow edges form the
cycle 2 → 3 → 2, both endpoints of which are excluded (contained in the
sequential pipeline 1); `build_dag` nevertheless fails with the
cyclic-workflow error, so a flow cycle confined to excluded nodes *does*
cause build to fail. -/
theorem c5_counterexample :
    build_dag cfgExclCycle = Except.error BuildError.cyclicWorkflow ∧
    (∃ st, buildNodes cfgExclCycle = Except.ok st ∧
      st.excluded = [2, 3] ∧
      (addEdges st cfgExclCycle).edges = [(2, 3), (3, 2)]) := by
  refine ⟨rfl, (buildNodes cfgExclCycle).toOption.getD initialState, rfl, rfl, rfl⟩

/-- C5 (corrected): given that node construction succeeds, `build_dag`
fails with the cyclic-workflow error exactly when the flow graph over
*all* nodes — excluded (contained) ones included — contains a directed
cycle.  The check `nx.is_directed_acyclic_graph(dag)` is not restricted
to the non-excluded subgraph. -/
theorem c5_cyclic_iff (config : Config) (st : DagState)
    (hn : buildNodes config = Except.ok st) :
    build_dag config = Except.error BuildError.cyclicWorkflow ↔
      HasCycle (addEdges st config) := by
  have hbd : build_dag config =
      (if (kahn (addEdges st config)).isSome = true then
        Except.ok (addEdges st config)
      else Except.error BuildError.cyclicWorkflow) := by
    unfold build_dag
    rw [hn]
    rfl
  have hwf := addEdges_wf st config
  rw [hbd]
  by_cases hk : (kahn (addEdges st config)).isSome = true
  · rw [if_pos hk]
    constructor
    · intro hcontra
      cases hcontra
    · intro hcyc
      exact ((kahn_isSome_iff _ hwf).mp hk hcyc).elim
  · rw [if_neg hk]
    constructor
    · intro _
      by_contra hnc
      exact hk ((kahn_isSome_iff _ hwf).mpr hnc)
    · intro _
      rfl

/-- Witness for C5: the excluded-cycle configuration, with the cycle
exhibited explicitly as reachability 2 → 3 → 2. -/
theorem c5_witness :
    build_dag cfgExclCycle = Except.error BuildError.cyclicWorkflow :=
  (c5_cyclic_iff cfgExclCycle
    ((buildNodes cfgExclCycle).toOption.getD initialState) rfl).mpr
    ⟨2, reachesTwo _ 2 3 2 (by decide) (by decide)⟩

/-! ## Claim C7: Model init fragments come first -/

theorem initsOk_order (l : List InitStmt) (hok : InitsOk l) :
    l.head? = some InitStmt.root ∧
    ∀ (i j mi aid : Nat) (ta : WorkflowNodeType),
      l[i]? = some (InitStmt.nodeInit mi WorkflowNodeType.model) →
      l[j]? = some (InitStmt.nodeInit aid ta) → ta ≠ WorkflowNodeType.model →
      i < j := by
  obtain ⟨ms, ns, rfl, hms, hns⟩ := hok
  refine ⟨rfl, ?_⟩
  intro i j mi aid ta hi hj hta
  have hlen : (InitStmt.root :: ms).length = ms.length + 1 := by simp
  have hibound : i < ms.length + 1 := by
    by_contra hc
    push_neg at hc
    rw [List.getElem?_append_right (by omega)] at hi
    rcases hd : i - (InitStmt.root :: ms).length with _ | k2
    · rw [hd, List.getElem?_cons_zero] at hi
      cases hi
    · rw [hd, List.getElem?_cons_succ] at hi
      obtain ⟨i', t', heq, hne⟩ := hns _ (List.getElem?_mem hi)
      cases heq
      exact hne rfl
  have hjbound : ms.length + 2 ≤ j := by
    by_contra hc
    push_neg at hc
    by_cases hj1 : j < ms.length + 1
    · rw [List.getElem?_append_left (by omega)] at hj
      cases j with
      | zero =>
        rw [List.getElem?_cons_zero] at hj
        cases hj
      | succ k =>
        rw [List.getElem?_cons_succ] at hj
        obtain ⟨i', heq⟩ := hms _ (List.getElem?_mem hj)
        cases heq
        exact hta rfl
    · have hj2 : j = ms.length + 1 := by omega
      subst hj2
      rw [List.getElem?_append_right (by omega)] at hj
      rw [show ms.length + 1 - (InitStmt.root :: ms).length = 0 from by omega] at hj
      rw [List.getElem?_cons_zero] at hj
      cases hj
  omega

/-- C7 (confirmed): in the initialization-statement list assembled by the
builder, every Model-kind node's init fragment sits after the root
initialization statement (which stays at the head) and before every
non-Model node's init fragment: Model fragments are inserted at position
1, all other fragments are appended. -/
theorem c7_model_inits_first (config : Config) (g : Graph)
    (hb : build_dag config = Except.ok g) :
    g.inits.head? = some InitStmt.root ∧
    ∀ (i j mi aid : Nat) (ta : WorkflowNodeType),
      g.inits[i]? = some (InitStmt.nodeInit mi WorkflowNodeType.model) →
      g.inits[j]? = some (InitStmt.nodeInit aid ta) →
      ta ≠ WorkflowNodeType.model →
      i < j := by
  obtain ⟨st, hn, rfl, _⟩ := build_dag_ok_inv config g hb
  obtain ⟨hbB, _⟩ := buildNodes_spec config st hn
  obtain ⟨_, _, hinits⟩ := addEdges_fields st config
  rw [hinits]
  exact initsOk_order st.inits (hbB.2.2.1 InitsOk_initial)

/-- Witness for C7: in the model-and-agent configuration the model's init
fragment (position 1) precedes the agent's (position 3). -/
theorem c7_witness :
    gModelAgent.inits.head? = some InitStmt.root ∧ (1 : Nat) < 3 :=
  ⟨(c7_model_inits_first cfgModelAgent gModelAgent rfl).1,
   (c7_model_inits_first cfgModelAgent gModelAgent rfl).2 1 3 8 7
     WorkflowNodeType.agent rfl rfl (by decide)⟩

/-! ## Claim C8: run visits the non-excluded nodes in dependency order -/

theorem addNodeId_fixed (g : Graph) (u : Nat) (h : u ∈ g.nodeIds) :
    addNodeId g u = g := by
  unfold addNodeId
  rw [if_pos h]

theorem addEdge_nodeIds_fixed (g : Graph) (u v : Nat)
    (hu : u ∈ g.nodeIds) (hv : v ∈ g.nodeIds) :
    (addEdge g u v).nodeIds = g.nodeIds := by
  unfold addEdge
  rw [addNodeId_fixed g u hu, addNodeId_fixed g v hv]
  exact (addEdgeRaw_fields g u v).2.2.2

theorem foldEdge_nodeIds_fixed (l : List Nat) (u : Nat) :
    ∀ g : Graph, u ∈ g.nodeIds → (∀ t ∈ l, t ∈ g.nodeIds) →
      (l.foldl (fun g t => addEdge g u t) g).nodeIds = g.nodeIds := by
  induction l with
  | nil => intro g _ _; rfl
  | cons a t ih =>
    intro g hu htl
    rw [List.foldl_cons]
    have ha := htl a (List.mem_cons_self a t)
    have hfix := addEdge_nodeIds_fixed g u a hu ha
    rw [ih (addEdge g u a) (by rw [hfix]; exact hu)
      (fun x hx => by rw [hfix]; exact htl x (List.mem_cons_of_mem _ hx))]
    exact hfix

theorem addEdges_nodeIds (st : DagState) (config : Config)
    (hkeys : ∀ e ∈ config, e.1 ∈ st.opts.map Prod.fst)
    (htgt : ∀ e ∈ config, ∀ t ∈ e.2.outputs, t ∈ st.opts.map Prod.fst) :
    (addEdges st config).nodeIds = st.opts.map Prod.fst := by
  unfold addEdges
  generalize hg0 : (⟨st.opts.map Prod.fst, [], st.opts, st.excluded,
    st.imports, st.inits⟩ : Graph) = g0
  have hbase : g0.nodeIds = st.opts.map Prod.fst := by
    rw [← hg0]
  clear hg0
  induction config generalizing g0 with
  | nil => exact hbase
  | cons e rest ih =>
    rw [List.foldl_cons]
    have hin := foldEdge_nodeIds_fixed e.2.outputs e.1 g0
      (by rw [hbase]; exact hkeys e (List.mem_cons_self e rest))
      (fun t ht => by rw [hbase]; exact htgt e (List.mem_cons_self e rest) t ht)
    exact ih (fun e' he' => hkeys e' (List.mem_cons_of_mem _ he'))
      (fun e' he' => htgt e' (List.mem_cons_of_mem _ he')) _ (hin.trans hbase)

theorem predsOf_mem (g : Graph) (v p : Nat) :
    p ∈ predsOf g v ↔ (p, v) ∈ g.edges := by
  simp only [predsOf, List.mem_map, List.mem_filter, decide_eq_true_eq]
  constructor
  · rintro ⟨e, ⟨he, h2⟩, rfl⟩
    have : e = (e.1, v) := by
      rw [← h2]
    rw [← this]
    exact he
  · intro h
    exact ⟨(p, v), ⟨h, rfl⟩, rfl⟩

theorem findVal_cons (e : Nat × Value) (t : List (Nat × Value)) (p : Nat) :
    (e :: t).find? (fun x => x.1 = p) =
      if e.1 = p then some e else t.find? (fun x => x.1 = p) := by
  by_cases he : e.1 = p
  · simp only [List.find?, show decide (e.1 = p) = true from by simpa using he]
    rw [if_pos he]
  · simp only [List.find?, show decide (e.1 = p) = false from by simpa using he]
    rw [if_neg he]

theorem mapM_values_ok (values : List (Nat × Value)) :
    ∀ ps : List Nat,
      (∀ p ∈ ps, ((values.find? (fun e => e.1 = p)).map Prod.snd).isSome = true) →
      ∃ vs, ps.mapM (fun p =>
        match (values.find? (fun e => e.1 = p)).map Prod.snd with
        | none => Except.error RunError.keyError
        | some v => pure v) = Except.ok vs := by
  intro ps
  induction ps with
  | nil => intro _; exact ⟨[], rfl⟩
  | cons p rest ih =>
    intro h
    obtain ⟨v, hv⟩ := Option.isSome_iff_exists.mp (h p (List.mem_cons_self p rest))
    obtain ⟨vs, hvs⟩ := ih (fun q hq => h q (List.mem_cons_of_mem _ hq))
    refine ⟨v :: vs, ?_⟩
    rw [List.mapM_cons, hv, hvs]
    rfl

theorem runStep_ok (g : Graph) (values : List (Nat × Value)) (nid : Nat)
    (hpred : ∀ p ∈ predsOf g nid,
      ((values.find? (fun e => e.1 = p)).map Prod.snd).isSome = true)
    (hopt : (lookupNode g.opts nid).isSome = true) :
    ∃ out, runStep g values nid = Except.ok out := by
  obtain ⟨vs, hmapm⟩ := mapM_values_ok values (predsOf g nid) hpred
  obtain ⟨opt, hopt'⟩ := Option.isSome_iff_exists.mp hopt
  unfold runStep
  rw [hmapm, hopt']
  simp only []
  by_cases hvs : vs.isEmpty = true
  · rw [if_pos hvs]
    exact ⟨_, rfl⟩
  · rw [if_neg hvs]
    have hne : vs.length ≠ 0 := by
      intro hc
      exact hvs (by rw [List.isEmpty_iff_length_eq_zero]; exact hc)
    rw [if_pos hne]
    exact ⟨_, rfl⟩

theorem indexOf_split (f done rem : List Nat) (nid p : Nat)
    (hsplit : f = done ++ nid :: rem) (hnd : f.Nodup) (hpf : p ∈ f)
    (hlt : f.indexOf p < f.indexOf nid) : p ∈ done := by
  subst hsplit
  rw [List.nodup_append] at hnd
  have hnidnotdone : nid ∉ done := by
    intro hc
    exact hnd.2.2 hc (List.mem_cons_self _ _)
  have hidx : (done ++ nid :: rem).indexOf nid = done.length := by
    rw [List.indexOf_append_of_not_mem hnidnotdone, List.indexOf_cons_self]
    omega
  by_contra hpnd
  have hp2 : (done ++ nid :: rem).indexOf p =
      done.length + (nid :: rem).indexOf p :=
    List.indexOf_append_of_not_mem hpnd
  omega

theorem filter_indexOf_lt {α : Type} [DecidableEq α] (p : α → Bool) :
    ∀ (l : List α), l.Nodup → ∀ x y, x ∈ l.filter p → y ∈ l.filter p →
      l.indexOf x < l.indexOf y →
      (l.filter p).indexOf x < (l.filter p).indexOf y := by
  intro l
  induction l with
  | nil =>
    intro _ x y hx
    rw [List.filter_nil] at hx
    cases hx
  | cons h t ih =>
    intro hnd x y hx hy hlt
    obtain ⟨hh, hndt⟩ := List.nodup_cons.mp hnd
    by_cases hhx : h = x
    · subst hhx
      have hph : p h = true := (List.mem_filter.mp hx).2
      have hyh : y ≠ h := by
        intro hc
        subst hc
        exact absurd hlt (lt_irrefl _)
      rw [List.filter_cons_of_pos hph]
      rw [List.indexOf_cons_self,
        List.indexOf_cons_ne _ (fun hc => hyh hc.symm)]
      exact Nat.succ_pos _
    · by_cases hhy : h = y
      · subst hhy
        rw [List.indexOf_cons_self] at hlt
        omega
      · have hxt : x ∈ t.filter p := by
          obtain ⟨hx1, hx2⟩ := List.mem_filter.mp hx
          rcases List.mem_cons.mp hx1 with rfl | hx1
          · exact absurd rfl hhx
          · exact List.mem_filter.mpr ⟨hx1, hx2⟩
        have hyt : y ∈ t.filter p := by
          obtain ⟨hy1, hy2⟩ := List.mem_filter.mp hy
          rcases List.mem_cons.mp hy1 with rfl | hy1
          · exact absurd rfl hhy
          · exact List.mem_filter.mpr ⟨hy1, hy2⟩
        have hxne : x ≠ h := fun hc => hhx hc.symm
        have hyne : y ≠ h := fun hc => hhy hc.symm
        have hlt' : t.indexOf x < t.indexOf y := by
          rw [List.indexOf_cons_ne _ hhx, List.indexOf_cons_ne _ hhy] at hlt
          omega
        have hres := ih hndt x y hxt hyt hlt'
        by_cases hph : p h = true
        · rw [List.filter_cons_of_pos hph]
          have hxfh : x ≠ h := hxne
          have hyfh : y ≠ h := hyne
          rw [List.indexOf_cons_ne _ (fun hc => hxfh hc.symm),
            List.indexOf_cons_ne _ (fun hc => hyfh hc.symm)]
          omega
        · rw [List.filter_cons_of_neg (by simpa using hph)]
          exact hres

theorem run_fold (g : Graph) (f : List Nat) (hnd : f.Nodup)
    (hopt : ∀ v ∈ f, (lookupNode g.opts v).isSome = true)
    (hpred : ∀ v ∈ f, ∀ p ∈ predsOf g v, p ∈ f ∧ f.indexOf p < f.indexOf v) :
    ∀ (rem done : List Nat) (values : List (Nat × Value))
      (trace : List (Nat × Value × Value)),
      f = done ++ rem →
      (∀ p ∈ done, ((values.find? (fun e => e.1 = p)).map Prod.snd).isSome = true) →
      ∃ values' trace',
        rem.foldlM
          (fun (acc : List (Nat × Value) × List (Nat × Value × Value)) nid => do
            let (xin, out) ← runStep g acc.1 nid
            pure ((nid, out) :: acc.1, acc.2 ++ [(nid, xin, out)]))
          (values, trace) = Except.ok (values', trace') ∧
        trace'.map (fun e => e.1) = trace.map (fun e => e.1) ++ rem := by
  intro rem
  induction rem with
  | nil =>
    intro done values trace hsplit hvals
    exact ⟨values, trace, rfl, by simp⟩
  | cons nid rest ih =>
    intro done values trace hsplit hvals
    have hnidf : nid ∈ f := by
      rw [hsplit]
      exact List.mem_append_right _ (List.mem_cons_self _ _)
    have hpredsdone : ∀ p ∈ predsOf g nid, p ∈ done := by
      intro p hp
      obtain ⟨hpf, hplt⟩ := hpred nid hnidf p hp
      exact indexOf_split f done rest nid p hsplit hnd hpf hplt
    obtain ⟨out, hstep⟩ := runStep_ok g values nid
      (fun p hp => hvals p (hpredsdone p hp)) (hopt nid hnidf)
    obtain ⟨xin, xout⟩ := out
    have hvals' : ∀ p ∈ done ++ [nid],
        ((((nid, xout) :: values).find? (fun e => e.1 = p)).map Prod.snd).isSome
          = true := by
      intro p hp
      rw [findVal_cons]
      by_cases hpn : nid = p
      · rw [if_pos hpn]
        rfl
      · rw [if_neg hpn]
        rcases List.mem_append.mp hp with hp | hp
        · exact hvals p hp
        · exact absurd (List.mem_singleton.mp hp).symm hpn
    obtain ⟨values', trace', hfold, htrace⟩ :=
      ih (done ++ [nid]) ((nid, xout) :: values)
        (trace ++ [(nid, xin, xout)])
        (by rw [hsplit, List.append_assoc]; rfl) hvals'
    refine ⟨values', trace', ?_, ?_⟩
    · rw [List.foldlM_cons]
      refine exceptBind_ok_intro _ _ _ _ ?_ hfold
      show (do
        let (xin, out) ← runStep g values nid
        pure ((nid, out) :: values, trace ++ [(nid, xin, out)]) :
          Except RunError _) =
        Except.ok ((nid, xout) :: values, trace ++ [(nid, xin, xout)])
      rw [hstep]
      rfl
    · rw [htrace]
      simp

/-- C8 counterexample: `cfgExclFlow` is acyclic and builds successfully,
node 4 is a non-excluded vertex, yet `run` aborts with a `KeyError` (the
excluded node 2 feeds node 4, but node 2 was never executed so its cached
output is missing) — node 4 is never executed. -/
theorem c8_counterexample :
    build_dag cfgExclFlow = Except.ok gExclFlow ∧
    (kahn gExclFlow).isSome = true ∧
    (4 ∈ gExclFlow.nodeIds ∧ 4 ∉ gExclFlow.excluded) ∧
    ASDiGraph.run gExclFlow = Except.error RunError.keyError := by
  exact ⟨rfl, rfl, by decide, rfl⟩

/-- C8 (corrected): for every configuration that builds successfully (in
particular, acyclic), with well-formed edge targets and unique ids, and
in which no excluded node has a flow edge into a non-excluded node, `run`
executes exactly the non-excluded nodes, each exactly once, in an order
where every executed node comes after all of its flow predecessors;
excluded nodes are never scheduled at top level. -/
theorem c8_run_schedule (config : Config) (g : Graph)
    (hb : build_dag config = Except.ok g)
    (hnodup : (config.map Prod.fst).Nodup)
    (htgt : ∀ e ∈ config, ∀ t ∈ e.2.outputs, t ∈ config.map Prod.fst)
    (hexcl : ∀ e ∈ g.edges, e.2 ∉ g.excluded → e.1 ∉ g.excluded) :
    ∃ trace, ASDiGraph.run g = Except.ok trace ∧
      (∀ v, v ∈ trace.map (fun e => e.1) ↔ v ∈ g.nodeIds ∧ v ∉ g.excluded) ∧
      (∀ v ∈ g.nodeIds, v ∉ g.excluded →
        (trace.map (fun e => e.1)).count v = 1) ∧
      (∀ e ∈ g.edges, e.1 ∉ g.excluded → e.2 ∉ g.excluded →
        (trace.map (fun e => e.1)).indexOf e.1 <
          (trace.map (fun e => e.1)).indexOf e.2) := by
  obtain ⟨st, hn, hgeq, hk⟩ := build_dag_ok_inv config g hb
  obtain ⟨hbB, hrest⟩ := buildNodes_spec config st hn
  obtain ⟨_, hpres⟩ := hrest hnodup
  have hkeys : ∀ e ∈ config, e.1 ∈ st.opts.map Prod.fst :=
    fun e he => (lookupNode_isSome_iff_mem _ _).mp (hpres e he)
  have htgt' : ∀ e ∈ config, ∀ t ∈ e.2.outputs, t ∈ st.opts.map Prod.fst := by
    intro e he t ht
    obtain ⟨e', he', he'1⟩ := List.mem_map.mp (htgt e he t ht)
    rw [← he'1]
    exact hkeys e' he'
  have hnodeIds : g.nodeIds = st.opts.map Prod.fst := by
    rw [hgeq]
    exact addEdges_nodeIds st config hkeys htgt'
  have hopts : g.opts = st.opts := by
    rw [hgeq]
    exact (addEdges_fields st config).1
  have hexecAll : ∀ v ∈ g.nodeIds, (lookupNode g.opts v).isSome = true := by
    intro v hv
    rw [hopts]
    rw [hnodeIds] at hv
    exact (lookupNode_isSome_iff_mem _ _).mpr hv
  have hndIds : g.nodeIds.Nodup := by
    rw [hnodeIds]
    exact hbB.2.2.2 List.nodup_nil
  have hwf : ∀ e ∈ g.edges, e.1 ∈ g.nodeIds ∧ e.2 ∈ g.nodeIds := by
    rw [hgeq]
    exact addEdges_wf st config
  obtain ⟨order, horder⟩ := Option.isSome_iff_exists.mp hk
  have horder' : kahnAux g.edges g.nodeIds.length g.nodeIds = some order := horder
  have hperm : order.Perm g.nodeIds := kahnAux_perm g.edges _ _ _ horder'
  have hordernd : order.Nodup := hperm.nodup_iff.mpr hndIds
  -- the filtered execution order
  have hfnd : (order.filter (fun v => decide (v ∉ g.excluded))).Nodup :=
    hordernd.filter _
  have hfmem : ∀ v, v ∈ order.filter (fun v => decide (v ∉ g.excluded)) ↔
      v ∈ g.nodeIds ∧ v ∉ g.excluded := by
    intro v
    rw [List.mem_filter, hperm.mem_iff, decide_eq_true_eq]
  have hfopt : ∀ v ∈ order.filter (fun v => decide (v ∉ g.excluded)),
      (lookupNode g.opts v).isSome = true :=
    fun v hv => hexecAll v ((hfmem v).mp hv).1
  have hidx : ∀ u v, (u, v) ∈ g.edges → u ∉ g.excluded → v ∉ g.excluded →
      (order.filter (fun v => decide (v ∉ g.excluded))).indexOf u <
        (order.filter (fun v => decide (v ∉ g.excluded))).indexOf v := by
    intro u v he hu hv
    have h1 : u ∈ g.nodeIds := (hwf (u, v) he).1
    have h2 : v ∈ g.nodeIds := (hwf (u, v) he).2
    have horderlt : order.indexOf u < order.indexOf v :=
      kahnAux_indexOf_lt g.edges _ _ _ u v horder' he h1 h2
    exact filter_indexOf_lt _ order hordernd u v
      ((hfmem u).mpr ⟨h1, hu⟩) ((hfmem v).mpr ⟨h2, hv⟩) horderlt
  have hfpred : ∀ v ∈ order.filter (fun v => decide (v ∉ g.excluded)),
      ∀ p ∈ predsOf g v,
        p ∈ order.filter (fun v => decide (v ∉ g.excluded)) ∧
        (order.filter (fun v => decide (v ∉ g.excluded))).indexOf p <
          (order.filter (fun v => decide (v ∉ g.excluded))).indexOf v := by
    intro v hv p hp
    have hedge : (p, v) ∈ g.edges := (predsOf_mem g v p).mp hp
    have hvnx : v ∉ g.excluded := ((hfmem v).mp hv).2
    have hpnx : p ∉ g.excluded := hexcl (p, v) hedge hvnx
    have hpn : p ∈ g.nodeIds := (hwf (p, v) hedge).1
    exact ⟨(hfmem p).mpr ⟨hpn, hpnx⟩, hidx p v hedge hpnx hvnx⟩
  obtain ⟨values', trace', hfold, htrace⟩ :=
    run_fold g (order.filter (fun v => decide (v ∉ g.excluded))) hfnd hfopt
      hfpred (order.filter (fun v => decide (v ∉ g.excluded))) [] [] [] rfl
      (fun p hp => absurd hp (List.not_mem_nil p))
  have htrace' : trace'.map (fun e => e.1) =
      order.filter (fun v => decide (v ∉ g.excluded)) := by
    rw [htrace]
    rfl
  refine ⟨trace', ?_, ?_, ?_, ?_⟩
  · unfold ASDiGraph.run
    rw [horder]
    refine exceptBind_ok_intro _ _ _ _ rfl ?_
    exact exceptBind_ok_intro _ _ _ _ hfold rfl
  · intro v
    rw [htrace']
    exact hfmem v
  · intro v hv hnx
    rw [htrace']
    exact List.count_eq_one_of_mem hfnd ((hfmem v).mpr ⟨hv, hnx⟩)
  · intro e he h1 h2
    rw [htrace']
    have : e = (e.1, e.2) := rfl
    exact hidx e.1 e.2 (by rw [← this]; exact he) h1 h2

/-- Witness for C8: the fan-in configuration (no exclusions at all)
satisfies every hypothesis, so `run` schedules exactly its three nodes. -/
theorem c8_witness :
    ∃ trace, ASDiGraph.run gFanIn = Except.ok trace ∧
      (∀ v, v ∈ trace.map (fun e => e.1) ↔
        v ∈ gFanIn.nodeIds ∧ v ∉ gFanIn.excluded) ∧
      (∀ v ∈ gFanIn.nodeIds, v ∉ gFanIn.excluded →
        (trace.map (fun e => e.1)).count v = 1) ∧
      (∀ e ∈ gFanIn.edges, e.1 ∉ gFanIn.excluded → e.2 ∉ gFanIn.excluded →
        (trace.map (fun e => e.1)).indexOf e.1 <
          (trace.map (fun e => e.1)).indexOf e.2) :=
  c8_run_schedule cfgFanIn gFanIn rfl (by decide) (by decide) (by decide)

end AgentScope
